import Mathlib

/-!
# Verification of the AI tic-tac-toe core (`ai_tic_tac_toe.py`)

Shallow embedding of the game logic of the `TicTacToe` class:
the board, `make_move`, `check_winner`, `get_empty_cells`, the
`minimax` search with alpha-beta pruning, `get_ai_move`,
`is_valid_move` and `reset_game`.  The pygame presentation layer is out
of scope.

Design notes on the embedding:
* Python cell values `' '`, `'X'`, `'O'` become the inductive `Mark`.
* `self.board` (a Python list of lists) becomes `List (List Mark)`.
  Python indexing `board[row]` with an `Int` index is modelled by
  `pyIdx`: an index `i` with `0 ≤ i < len` resolves to `i`, an index
  with `-len ≤ i < 0` resolves to `i + len` (CPython negative-index
  wrapping), anything else raises `IndexError`, modelled as `none`.
* Python floats only ever hold the exact values `±math.inf` and small
  integers here, so scores are modelled as `WithBot (WithTop ℤ)`:
  `⊥` is `-math.inf`, `⊤` is `math.inf`, `iv n` is the integer `n`.
* `minimax` mutates `self` (the board during speculative search, and
  the `nodes_explored` / `depth_reached` counters), so it threads the
  whole `TicTacToe` state and returns the updated state alongside the
  `(score, move)` pair.  The two `for` loops over `get_empty_cells`
  become the list-recursive helpers `maxLoop` / `minLoop`, and the
  recursion is indexed by a fuel parameter (`none` = fuel exhausted;
  any fuel larger than the number of empty cells suffices, and every
  theorem below that needs a completed search takes the corresponding
  `= some _` hypothesis).
-/

namespace TTT

/-- Cell contents: `' '`, `'X'`, `'O'` in the source. -/
inductive Mark where
  | E : Mark
  | X : Mark
  | O : Mark
deriving DecidableEq, Fintype, Repr

open Mark

/-- `BOARD_SIZE = 3`. -/
def BOARD_SIZE : Nat := 3

/-- `self.board`: a list of rows, each a list of cell marks. -/
abbrev Board := List (List Mark)

/-- The board built by `TicTacToe.__init__` / `reset_game`:
`[[' '] * 3] * 3` (all cells empty). -/
def emptyBoard : Board :=
  List.replicate BOARD_SIZE (List.replicate BOARD_SIZE Mark.E)

/-- Read `board[i][j]` for already-validated indices (both reads are
in range whenever this is used on the 3×3 board of the program). -/
def getCell (b : Board) (i j : Nat) : Mark :=
  (b.getD i []).getD j Mark.E

/-- Write `board[i][j] = m` for already-validated indices. -/
def setCell (b : Board) (i j : Nat) (m : Mark) : Board :=
  b.set i ((b.getD i []).set j m)

/-- CPython list indexing for a list of length `len`: `0 ≤ i < len`
resolves to `i`; `-len ≤ i < 0` wraps to `i + len`; anything else
raises `IndexError` (`none`). -/
def pyIdx (len : Nat) (i : Int) : Option Nat :=
  if 0 ≤ i then
    if i < (len : Int) then some i.toNat else none
  else
    if 0 ≤ i + (len : Int) then some (i + (len : Int)).toNat else none

/-- The mutable state of the `TicTacToe` class (presentation fields
excluded). -/
structure TicTacToe where
  board : Board
  current_player : Mark
  game_over : Bool
  winner : Option Mark
  last_ai_move : Option (Nat × Nat)
  moves_made : Nat
  max_moves : Nat
  player_wins : Nat
  ai_wins : Nat
  draws : Nat
  nodes_explored : Nat
  depth_reached : Nat
deriving DecidableEq, Repr

/-- `TicTacToe.__init__`. -/
def init : TicTacToe where
  board := emptyBoard
  current_player := Mark.X
  game_over := false
  winner := none
  last_ai_move := none
  moves_made := 0
  max_moves := BOARD_SIZE * BOARD_SIZE
  player_wins := 0
  ai_wins := 0
  draws := 0
  nodes_explored := 0
  depth_reached := 0

/-- `TicTacToe.reset_game`. -/
def reset_game (g : TicTacToe) : TicTacToe :=
  { g with
    board := emptyBoard
    current_player := Mark.X
    game_over := false
    winner := none
    last_ai_move := none
    moves_made := 0
    nodes_explored := 0
    depth_reached := 0 }

/-- `TicTacToe.check_winner(player)`: any full row, full column or
either full diagonal consists of `player`. -/
def check_winner (b : Board) (player : Mark) : Bool :=
  ((List.range BOARD_SIZE).any fun i =>
    ((List.range BOARD_SIZE).all fun j => getCell b i j == player)
    || ((List.range BOARD_SIZE).all fun j => getCell b j i == player))
  || ((List.range BOARD_SIZE).all fun i => getCell b i i == player)
  || ((List.range BOARD_SIZE).all fun i =>
        getCell b i (BOARD_SIZE - 1 - i) == player)

/-- `TicTacToe.get_empty_cells`: the empty cells in row-major order. -/
def get_empty_cells (b : Board) : List (Nat × Nat) :=
  (List.range BOARD_SIZE).flatMap fun i =>
    (List.range BOARD_SIZE).filterMap fun j =>
      if getCell b i j = Mark.E then some (i, j) else none

/--
`TicTacToe.make_move(row, col, player)`.

The result is `none` when the Python code would raise `IndexError`
(coordinate outside `[-3, 3)` on the 3×3 board), and `some (ok, g')`
when it returns the boolean `ok` with updated state `g'`.  The
`game_over` test short-circuits before the board access, exactly as
`self.game_over or self.board[row][col] != ' '` does.
-/
def make_move (g : TicTacToe) (row col : Int) (player : Mark) :
    Option (Bool × TicTacToe) :=
  if g.game_over then some (false, g)
  else
    match pyIdx g.board.length row with
    | none => none
    | some r =>
      match pyIdx (g.board.getD r []).length col with
      | none => none
      | some c =>
        if getCell g.board r c ≠ Mark.E then some (false, g)
        else
          let b' := setCell g.board r c player
          let g1 : TicTacToe :=
            { g with board := b', moves_made := g.moves_made + 1 }
          let g2 : TicTacToe :=
            if check_winner b' player then
              { g1 with
                game_over := true
                winner := some player
                player_wins :=
                  if player = Mark.X then g1.player_wins + 1
                  else g1.player_wins
                ai_wins :=
                  if player = Mark.X then g1.ai_wins else g1.ai_wins + 1 }
            else if g1.moves_made = g.max_moves then
              { g1 with game_over := true, draws := g1.draws + 1 }
            else g1
          some (true,
            { g2 with
              current_player :=
                if player = Mark.X then Mark.O else Mark.X })

/-- `TicTacToe.is_valid_move(row, col)`:
`0 <= row < 3 and 0 <= col < 3 and board[row][col] == ' '`. -/
def is_valid_move (g : TicTacToe) (row col : Int) : Bool :=
  decide (0 ≤ row) && decide (row < (BOARD_SIZE : Int))
    && decide (0 ≤ col) && decide (col < (BOARD_SIZE : Int))
    && (getCell g.board row.toNat col.toNat == Mark.E)

/-- Scores: Python floats which here only ever hold `-math.inf` (`⊥`),
`math.inf` (`⊤`) or an integer (`iv n`). -/
abbrev Score := WithBot (WithTop ℤ)

/-- The integer score `n` as a `Score`. -/
def iv (n : ℤ) : Score := ((n : WithTop ℤ) : Score)

/-- The maximizing `for row, col in self.get_empty_cells()` loop of
`minimax` (the `is_maximizing` branch): place `'O'`, recurse via `rec`
(= `minimax` at one less fuel) with `is_maximizing = False`, clear the
cell, update the running maximum / best move with a strict `>`
comparison, update `alpha`, and `break` when `beta <= alpha`. -/
def maxLoop
    (rec : TicTacToe → Nat → Bool → Score → Score →
      Option (Score × Option (Nat × Nat) × TicTacToe))
    (depth : Nat) (beta : Score) :
    List (Nat × Nat) → Score → Option (Nat × Nat) → Score → TicTacToe →
      Option (Score × Option (Nat × Nat) × TicTacToe)
  | [], maxEval, best, _, g => some (maxEval, best, g)
  | p :: rest, maxEval, best, alpha, g =>
    match rec { g with board := setCell g.board p.1 p.2 Mark.O }
        (depth + 1) false alpha beta with
    | none => none
    | some (score, _, g2) =>
      if beta ≤ max alpha score then
        some ((if maxEval < score then score else maxEval),
          (if maxEval < score then some p else best),
          { g2 with board := setCell g2.board p.1 p.2 Mark.E })
      else
        maxLoop rec depth beta rest
          (if maxEval < score then score else maxEval)
          (if maxEval < score then some p else best)
          (max alpha score)
          { g2 with board := setCell g2.board p.1 p.2 Mark.E }

/-- The minimizing loop of `minimax`: place `'X'`, recurse with
`is_maximizing = True`, clear, update the running minimum / best move
with a strict `<` comparison, update `beta`, `break` when
`beta <= alpha`. -/
def minLoop
    (rec : TicTacToe → Nat → Bool → Score → Score →
      Option (Score × Option (Nat × Nat) × TicTacToe))
    (depth : Nat) (alpha : Score) :
    List (Nat × Nat) → Score → Option (Nat × Nat) → Score → TicTacToe →
      Option (Score × Option (Nat × Nat) × TicTacToe)
  | [], minEval, best, _, g => some (minEval, best, g)
  | p :: rest, minEval, best, beta, g =>
    match rec { g with board := setCell g.board p.1 p.2 Mark.X }
        (depth + 1) true alpha beta with
    | none => none
    | some (score, _, g2) =>
      if min beta score ≤ alpha then
        some ((if score < minEval then score else minEval),
          (if score < minEval then some p else best),
          { g2 with board := setCell g2.board p.1 p.2 Mark.E })
      else
        minLoop rec depth alpha rest
          (if score < minEval then score else minEval)
          (if score < minEval then some p else best)
          (min beta score)
          { g2 with board := setCell g2.board p.1 p.2 Mark.E }

/--
`TicTacToe.minimax(depth, is_maximizing, alpha, beta)` with alpha-beta
pruning, indexed by fuel (any fuel larger than the number of empty
cells is enough; `none` means the fuel ran out).  Increments
`nodes_explored`, raises `depth_reached`, then checks the terminal
states — `'O'` won, `'X'` won, no empty cell — before iterating the
candidate moves.
-/
def minimax : Nat → TicTacToe → Nat → Bool → Score → Score →
    Option (Score × Option (Nat × Nat) × TicTacToe)
  | 0, _, _, _, _, _ => none
  | fuel + 1, g, depth, is_maximizing, alpha, beta =>
    let g0 : TicTacToe :=
      { g with
        nodes_explored := g.nodes_explored + 1
        depth_reached := max g.depth_reached depth }
    if check_winner g0.board Mark.O then
      some (iv (10 - (depth : ℤ)), none, g0)
    else if check_winner g0.board Mark.X then
      some (iv ((depth : ℤ) - 10), none, g0)
    else if get_empty_cells g0.board = [] then
      some (iv 0, none, g0)
    else if is_maximizing then
      maxLoop (minimax fuel) depth beta (get_empty_cells g0.board)
        ⊥ none alpha g0
    else
      minLoop (minimax fuel) depth alpha (get_empty_cells g0.board)
        ⊤ none beta g0

/-- `TicTacToe.get_ai_move`: run `minimax(0, True)` (with defaulted
`alpha = -inf`, `beta = inf`); if it yields no move, fall back to
`self.get_empty_cells()[0]` (`none` here models the `IndexError` that
`[0]` raises on an empty list, and also a fuel-exhausted search). -/
def get_ai_move (g : TicTacToe) : Option ((Nat × Nat) × TicTacToe) :=
  match minimax 10 g 0 true ⊥ ⊤ with
  | none => none
  | some (_, some move, g') => some (move, g')
  | some (_, none, g') =>
    match get_empty_cells g'.board with
    | [] => none
    | m :: _ => some (m, g')

/--
Modelled from the spec:
plain exhaustive minimax — "full enumeration of empty cells in
row-major order with strict `>` / `<` tie-break comparisons", with the
same depth-aware terminal scoring, but no alpha/beta parameters and no
pruning cutoff.  This is the refinement comparand for the claim that
alpha-beta pruning is value-preserving; the maximizing loop.
-/
def plainMaxLoop
    (rec : TicTacToe → Nat → Bool →
      Option (Score × Option (Nat × Nat) × TicTacToe))
    (depth : Nat) :
    List (Nat × Nat) → Score → Option (Nat × Nat) → TicTacToe →
      Option (Score × Option (Nat × Nat) × TicTacToe)
  | [], maxEval, best, g => some (maxEval, best, g)
  | p :: rest, maxEval, best, g =>
    match rec { g with board := setCell g.board p.1 p.2 Mark.O }
        (depth + 1) false with
    | none => none
    | some (score, _, g2) =>
      plainMaxLoop rec depth rest
        (if maxEval < score then score else maxEval)
        (if maxEval < score then some p else best)
        { g2 with board := setCell g2.board p.1 p.2 Mark.E }

/-- Modelled from the spec: the minimizing loop of plain exhaustive
minimax (no pruning). -/
def plainMinLoop
    (rec : TicTacToe → Nat → Bool →
      Option (Score × Option (Nat × Nat) × TicTacToe))
    (depth : Nat) :
    List (Nat × Nat) → Score → Option (Nat × Nat) → TicTacToe →
      Option (Score × Option (Nat × Nat) × TicTacToe)
  | [], minEval, best, g => some (minEval, best, g)
  | p :: rest, minEval, best, g =>
    match rec { g with board := setCell g.board p.1 p.2 Mark.X }
        (depth + 1) true with
    | none => none
    | some (score, _, g2) =>
      plainMinLoop rec depth rest
        (if score < minEval then score else minEval)
        (if score < minEval then some p else best)
        { g2 with board := setCell g2.board p.1 p.2 Mark.E }

/-- Modelled from the spec: plain exhaustive minimax with the same
terminal scoring and instrumentation as `minimax` but full enumeration
(no alpha-beta pruning). -/
def minimaxPlain : Nat → TicTacToe → Nat → Bool →
    Option (Score × Option (Nat × Nat) × TicTacToe)
  | 0, _, _, _ => none
  | fuel + 1, g, depth, is_maximizing =>
    let g0 : TicTacToe :=
      { g with
        nodes_explored := g.nodes_explored + 1
        depth_reached := max g.depth_reached depth }
    if check_winner g0.board Mark.O then
      some (iv (10 - (depth : ℤ)), none, g0)
    else if check_winner g0.board Mark.X then
      some (iv ((depth : ℤ) - 10), none, g0)
    else if get_empty_cells g0.board = [] then
      some (iv 0, none, g0)
    else if is_maximizing then
      plainMaxLoop (minimaxPlain fuel) depth (get_empty_cells g0.board)
        ⊥ none g0
    else
      plainMinLoop (minimaxPlain fuel) depth (get_empty_cells g0.board)
        ⊤ none g0

/-!
## A fast pure evaluator for `minimax`

Kernel evaluation of `minimax` from the empty board is expensive, so
the concrete searches of the optimal playout are evaluated on
`fMinimax`: a board-only copy of the same algorithm whose primitive
operations (`fastCheck`, `fastEmpties`, `fastSet`) are flat 3×3 case
splits.  Each flat primitive is proved pointwise equal to the
corresponding faithful definition, and `minimax_fast` below proves
that `fMinimax` computes exactly the `(score, move)` of `minimax`.
-/

/-- Flat three-row form of `check_winner` (pointwise equal, see
`fastCheck_eq`): its first branch is the definitional unfolding of
`check_winner` on a board with exactly three rows. -/
def fastCheck (b : Board) (p : Mark) : Bool :=
  match b with
  | [r0, r1, r2] =>
    (((((r0.getD 0 Mark.E == p && (r0.getD 1 Mark.E == p && (r0.getD 2 Mark.E == p && true)))
        || (r0.getD 0 Mark.E == p && (r1.getD 0 Mark.E == p && (r2.getD 0 Mark.E == p && true))))
      || (((r1.getD 0 Mark.E == p && (r1.getD 1 Mark.E == p && (r1.getD 2 Mark.E == p && true)))
            || (r0.getD 1 Mark.E == p && (r1.getD 1 Mark.E == p && (r2.getD 1 Mark.E == p && true))))
          || (((r2.getD 0 Mark.E == p && (r2.getD 1 Mark.E == p && (r2.getD 2 Mark.E == p && true)))
                || (r0.getD 2 Mark.E == p && (r1.getD 2 Mark.E == p && (r2.getD 2 Mark.E == p && true))))
              || false)))
     || (r0.getD 0 Mark.E == p && (r1.getD 1 Mark.E == p && (r2.getD 2 Mark.E == p && true))))
    || (r0.getD 2 Mark.E == p && (r1.getD 1 Mark.E == p && (r2.getD 0 Mark.E == p && true))))
  | _ => check_winner b p

/-- One row's contribution to `get_empty_cells` (row `i` with cells
`r`): the definitional unfolding of the inner `filterMap`. -/
def rowCells (i : Nat) (r : List Mark) : List (Nat × Nat) :=
  (List.range BOARD_SIZE).filterMap fun j =>
    if r.getD j Mark.E = Mark.E then some (i, j) else none

/-- Flat three-cell form of `rowCells` (pointwise equal, see
`rowFlat_eq`). -/
def rowFlat (i : Nat) (r : List Mark) : List (Nat × Nat) :=
  match r with
  | [x, y, z] =>
    (if x == Mark.E then [(i, 0)] else [])
      ++ ((if y == Mark.E then [(i, 1)] else [])
          ++ (if z == Mark.E then [(i, 2)] else []))
  | _ => rowCells i r

/-- Flat three-row form of `get_empty_cells` (pointwise equal, see
`fastEmpties_eq`). -/
def fastEmpties (b : Board) : List (Nat × Nat) :=
  match b with
  | [r0, r1, r2] => rowFlat 0 r0 ++ (rowFlat 1 r1 ++ (rowFlat 2 r2 ++ []))
  | _ => get_empty_cells b

/-- Flat length-3 form of `List.set` on a row (pointwise equal, see
`fastSetRow_eq`). -/
def fastSetRow (r : List Mark) (j : Nat) (m : Mark) : List Mark :=
  match r, j with
  | [_, a1, a2], 0 => [m, a1, a2]
  | [a0, _, a2], 1 => [a0, m, a2]
  | [a0, a1, _], 2 => [a0, a1, m]
  | _, _ => r.set j m

/-- Flat 3×3 form of `setCell` (pointwise equal, see `fastSet_eq`). -/
def fastSet (b : Board) (i j : Nat) (m : Mark) : Board :=
  match b, i with
  | [r0, r1, r2], 0 => [fastSetRow r0 j m, r1, r2]
  | [r0, r1, r2], 1 => [r0, fastSetRow r1 j m, r2]
  | [r0, r1, r2], 2 => [r0, r1, fastSetRow r2 j m]
  | _, _ => setCell b i j m

/-- Board-only copy of `maxLoop` over the flat primitives. -/
def fMaxLoop
    (rec : Board → Nat → Bool → Score → Score →
      Option (Score × Option (Nat × Nat)))
    (depth : Nat) (beta : Score) :
    List (Nat × Nat) → Score → Option (Nat × Nat) → Score → Board →
      Option (Score × Option (Nat × Nat))
  | [], maxEval, best, _, _ => some (maxEval, best)
  | p :: rest, maxEval, best, alpha, b =>
    match rec (fastSet b p.1 p.2 Mark.O) (depth + 1) false alpha beta with
    | none => none
    | some (score, _) =>
      if beta ≤ max alpha score then
        some ((if maxEval < score then score else maxEval),
          (if maxEval < score then some p else best))
      else
        fMaxLoop rec depth beta rest
          (if maxEval < score then score else maxEval)
          (if maxEval < score then some p else best)
          (max alpha score) b

/-- Board-only copy of `minLoop` over the flat primitives. -/
def fMinLoop
    (rec : Board → Nat → Bool → Score → Score →
      Option (Score × Option (Nat × Nat)))
    (depth : Nat) (alpha : Score) :
    List (Nat × Nat) → Score → Option (Nat × Nat) → Score → Board →
      Option (Score × Option (Nat × Nat))
  | [], minEval, best, _, _ => some (minEval, best)
  | p :: rest, minEval, best, beta, b =>
    match rec (fastSet b p.1 p.2 Mark.X) (depth + 1) true alpha beta with
    | none => none
    | some (score, _) =>
      if min beta score ≤ alpha then
        some ((if score < minEval then score else minEval),
          (if score < minEval then some p else best))
      else
        fMinLoop rec depth alpha rest
          (if score < minEval then score else minEval)
          (if score < minEval then some p else best)
          (min beta score) b

/-- Board-only copy of `minimax` over the flat primitives, computing
the same `(score, move)` pair (`minimax_fast`). -/
def fMinimax : Nat → Board → Nat → Bool → Score → Score →
    Option (Score × Option (Nat × Nat))
  | 0, _, _, _, _, _ => none
  | fuel + 1, b, depth, is_maximizing, alpha, beta =>
    if fastCheck b Mark.O then some (iv (10 - (depth : ℤ)), none)
    else if fastCheck b Mark.X then some (iv ((depth : ℤ) - 10), none)
    else if fastEmpties b = [] then some (iv 0, none)
    else if is_maximizing then
      fMaxLoop (fMinimax fuel) depth beta (fastEmpties b) ⊥ none alpha b
    else
      fMinLoop (fMinimax fuel) depth alpha (fastEmpties b) ⊤ none beta b

/-- One turn of the optimal-play game of the main loop: the current
player asks `minimax` for its own best move (`'O'` maximizes, `'X'`
minimizes, exactly the two root calls the program issues) and applies
it with `make_move`.  `none` when the search or the application fails. -/
def step (g : TicTacToe) : Option TicTacToe :=
  match (if g.current_player = Mark.O then minimax 10 g 0 true ⊥ ⊤
         else minimax 10 g 0 false ⊥ ⊤) with
  | none => none
  | some (_, none, _) => none
  | some (_, some p, g') =>
    match make_move g' (p.1 : Int) (p.2 : Int) g.current_player with
    | some (true, g'') => some g''
    | _ => none

/-- `n` turns of optimal play from the initial state. -/
def playN : Nat → Option TicTacToe
  | 0 => some init
  | n + 1 => (playN n).bind step

/-!
## Pointwise equality of the flat primitives
-/

lemma fastCheck_eq (b : Board) (p : Mark) : fastCheck b p = check_winner b p := by
  unfold fastCheck
  split
  · rfl
  · rfl

lemma rowFlat_eq (i : Nat) (r : List Mark) : rowFlat i r = rowCells i r := by
  unfold rowFlat
  split
  · rename_i x y z
    cases x <;> cases y <;> cases z <;> rfl
  · rfl

lemma fastEmpties_eq (b : Board) : fastEmpties b = get_empty_cells b := by
  unfold fastEmpties
  split
  · rw [rowFlat_eq, rowFlat_eq, rowFlat_eq]
    rfl
  · rfl

lemma fastSetRow_eq (r : List Mark) (j : Nat) (m : Mark) :
    fastSetRow r j m = r.set j m := by
  unfold fastSetRow
  split <;> rfl

lemma fastSet_eq (b : Board) (i j : Nat) (m : Mark) :
    fastSet b i j m = setCell b i j m := by
  unfold fastSet
  split <;> first
    | rfl
    | (rw [fastSetRow_eq]; rfl)

/-!
## Board helper lemmas
-/

lemma list_set_getD (l : List α) : ∀ (i : Nat) (d : α), l.set i (l.getD i d) = l := by
  induction l with
  | nil => intro i d; rfl
  | cons a t ih =>
    intro i d
    cases i with
    | zero => rfl
    | succ n => simpa using ih n d

lemma list_set_of_getD {l : List α} {i : Nat} {d : α} (h : l.getD i d = d) :
    l.set i d = l := by
  conv_lhs => rw [← h]
  exact list_set_getD l i d

lemma list_getD_set_self (l : List α) : ∀ (i : Nat) (a d : α),
    (l.set i a).getD i d = if i < l.length then a else d := by
  induction l with
  | nil => intro i a d; simp
  | cons x t ih =>
    intro i a d
    cases i with
    | zero => simp
    | succ n => simpa using ih n a d

/-- Clearing a just-placed mark restores the board (the cell was
empty). -/
lemma setCell_clear {b : Board} {r c : Nat} (m : Mark)
    (h : getCell b r c = Mark.E) :
    setCell (setCell b r c m) r c Mark.E = b := by
  unfold setCell getCell at *
  by_cases hr : r < b.length
  · have hrow : (b.set r ((b.getD r []).set c m)).getD r [] = (b.getD r []).set c m := by
      rw [list_getD_set_self]
      simp [hr]
    rw [hrow, List.set_set, List.set_set]
    rw [list_set_of_getD h]
    exact list_set_getD b r []
  · have hb : ∀ (row : List Mark), b.set r row = b :=
      fun row => List.set_eq_of_length_le (Nat.le_of_not_lt hr)
    rw [hb, hb]

/-- A cell listed by `get_empty_cells` is empty. -/
lemma mem_empty_cells {b : Board} {p : Nat × Nat}
    (hp : p ∈ get_empty_cells b) : getCell b p.1 p.2 = Mark.E := by
  simp only [get_empty_cells, List.mem_flatMap, List.mem_filterMap,
    List.mem_range] at hp
  obtain ⟨i, _, j, _, hj⟩ := hp
  by_cases hc : getCell b i j = Mark.E
  · rw [if_pos hc] at hj
    cases hj
    exact hc
  · rw [if_neg hc] at hj
    cases hj

/-!
## The search leaves every non-instrumentation field unchanged

`minimax` mutates the board only speculatively (every placement is
paired with a clear) and otherwise writes only the two counters, so
the returned state agrees with the input state on every other field.
-/

/-- All fields except the two instrumentation counters agree. -/
def SameCore (g g' : TicTacToe) : Prop :=
  g'.board = g.board ∧ g'.current_player = g.current_player ∧
  g'.game_over = g.game_over ∧ g'.winner = g.winner ∧
  g'.last_ai_move = g.last_ai_move ∧ g'.moves_made = g.moves_made ∧
  g'.max_moves = g.max_moves ∧ g'.player_wins = g.player_wins ∧
  g'.ai_wins = g.ai_wins ∧ g'.draws = g.draws

lemma sameCore_refl (g : TicTacToe) : SameCore g g :=
  ⟨rfl, rfl, rfl, rfl, rfl, rfl, rfl, rfl, rfl, rfl⟩

lemma sameCore_trans {g1 g2 g3 : TicTacToe}
    (h : SameCore g1 g2) (h' : SameCore g2 g3) : SameCore g1 g3 :=
  ⟨h'.1.trans h.1, h'.2.1.trans h.2.1, h'.2.2.1.trans h.2.2.1,
    h'.2.2.2.1.trans h.2.2.2.1, h'.2.2.2.2.1.trans h.2.2.2.2.1,
    h'.2.2.2.2.2.1.trans h.2.2.2.2.2.1,
    h'.2.2.2.2.2.2.1.trans h.2.2.2.2.2.2.1,
    h'.2.2.2.2.2.2.2.1.trans h.2.2.2.2.2.2.2.1,
    h'.2.2.2.2.2.2.2.2.1.trans h.2.2.2.2.2.2.2.2.1,
    h'.2.2.2.2.2.2.2.2.2.trans h.2.2.2.2.2.2.2.2.2⟩

lemma maxLoop_state
    (rec : TicTacToe → Nat → Bool → Score → Score →
      Option (Score × Option (Nat × Nat) × TicTacToe))
    (depth : Nat) (beta : Score)
    (Hrec : ∀ g d m α β v mv g', rec g d m α β = some (v, mv, g') →
      SameCore g g') :
    ∀ (ms : List (Nat × Nat)) (bA : Score) best (α : Score) g v mv g',
      (∀ p ∈ ms, getCell g.board p.1 p.2 = Mark.E) →
      maxLoop rec depth beta ms bA best α g = some (v, mv, g') →
      SameCore g g' := by
  intro ms
  induction ms with
  | nil =>
    intro bA best α g v mv g' _ h
    simp only [maxLoop, Option.some.injEq, Prod.mk.injEq] at h
    rw [← h.2.2]
    exact sameCore_refl g
  | cons p rest ih =>
    intro bA best α g v mv g' hmem h
    simp only [maxLoop] at h
    cases hr : rec { g with board := setCell g.board p.1 p.2 Mark.O }
        (depth + 1) false α beta with
    | none => simp only [hr] at h; exact Option.noConfusion h
    | some t =>
      obtain ⟨s, mv2, g2⟩ := t
      simp only [hr] at h
      have hc : SameCore { g with board := setCell g.board p.1 p.2 Mark.O } g2 :=
        Hrec _ _ _ _ _ _ _ _ hr
      have hb2 : g2.board = setCell g.board p.1 p.2 Mark.O := hc.1
      have hcore3 :
          SameCore g { g2 with board := setCell g2.board p.1 p.2 Mark.E } := by
        refine ⟨?_, hc.2.1, hc.2.2.1, hc.2.2.2.1, hc.2.2.2.2.1,
          hc.2.2.2.2.2.1, hc.2.2.2.2.2.2.1, hc.2.2.2.2.2.2.2.1,
          hc.2.2.2.2.2.2.2.2.1, hc.2.2.2.2.2.2.2.2.2⟩
        show setCell g2.board p.1 p.2 Mark.E = g.board
        rw [hb2]
        exact setCell_clear Mark.O (hmem p (List.mem_cons_self p rest))
      split at h
      · simp only [Option.some.injEq, Prod.mk.injEq] at h
        rw [← h.2.2]
        exact hcore3
      · refine sameCore_trans hcore3 (ih _ _ _ _ _ _ _ ?_ h)
        intro q hq
        rw [hcore3.1]
        exact hmem q (List.mem_cons_of_mem p hq)

lemma minLoop_state
    (rec : TicTacToe → Nat → Bool → Score → Score →
      Option (Score × Option (Nat × Nat) × TicTacToe))
    (depth : Nat) (alpha : Score)
    (Hrec : ∀ g d m α β v mv g', rec g d m α β = some (v, mv, g') →
      SameCore g g') :
    ∀ (ms : List (Nat × Nat)) (bA : Score) best (β : Score) g v mv g',
      (∀ p ∈ ms, getCell g.board p.1 p.2 = Mark.E) →
      minLoop rec depth alpha ms bA best β g = some (v, mv, g') →
      SameCore g g' := by
  intro ms
  induction ms with
  | nil =>
    intro bA best β g v mv g' _ h
    simp only [minLoop, Option.some.injEq, Prod.mk.injEq] at h
    rw [← h.2.2]
    exact sameCore_refl g
  | cons p rest ih =>
    intro bA best β g v mv g' hmem h
    simp only [minLoop] at h
    cases hr : rec { g with board := setCell g.board p.1 p.2 Mark.X }
        (depth + 1) true alpha β with
    | none => simp only [hr] at h; exact Option.noConfusion h
    | some t =>
      obtain ⟨s, mv2, g2⟩ := t
      simp only [hr] at h
      have hc : SameCore { g with board := setCell g.board p.1 p.2 Mark.X } g2 :=
        Hrec _ _ _ _ _ _ _ _ hr
      have hb2 : g2.board = setCell g.board p.1 p.2 Mark.X := hc.1
      have hcore3 :
          SameCore g { g2 with board := setCell g2.board p.1 p.2 Mark.E } := by
        refine ⟨?_, hc.2.1, hc.2.2.1, hc.2.2.2.1, hc.2.2.2.2.1,
          hc.2.2.2.2.2.1, hc.2.2.2.2.2.2.1, hc.2.2.2.2.2.2.2.1,
          hc.2.2.2.2.2.2.2.2.1, hc.2.2.2.2.2.2.2.2.2⟩
        show setCell g2.board p.1 p.2 Mark.E = g.board
        rw [hb2]
        exact setCell_clear Mark.X (hmem p (List.mem_cons_self p rest))
      split at h
      · simp only [Option.some.injEq, Prod.mk.injEq] at h
        rw [← h.2.2]
        exact hcore3
      · refine sameCore_trans hcore3 (ih _ _ _ _ _ _ _ ?_ h)
        intro q hq
        rw [hcore3.1]
        exact hmem q (List.mem_cons_of_mem p hq)

/-- A completed `minimax` call changes nothing but the two
instrumentation counters; in particular the board is restored. -/
lemma minimax_state : ∀ (fuel : Nat) (g : TicTacToe) (d : Nat) (m : Bool)
    (α β : Score) v mv g',
    minimax fuel g d m α β = some (v, mv, g') → SameCore g g' := by
  intro fuel
  induction fuel with
  | zero => intro g d m α β v mv g' h; exact absurd h (by simp [minimax])
  | succ n ih =>
    intro g d m α β v mv g' h
    simp only [minimax] at h
    have hg0 : SameCore g
        { g with
          nodes_explored := g.nodes_explored + 1
          depth_reached := max g.depth_reached d } :=
      ⟨rfl, rfl, rfl, rfl, rfl, rfl, rfl, rfl, rfl, rfl⟩
    split at h
    · simp only [Option.some.injEq, Prod.mk.injEq] at h
      rw [← h.2.2]; exact hg0
    · split at h
      · simp only [Option.some.injEq, Prod.mk.injEq] at h
        rw [← h.2.2]; exact hg0
      · split at h
        · simp only [Option.some.injEq, Prod.mk.injEq] at h
          rw [← h.2.2]; exact hg0
        · split at h
          · exact sameCore_trans hg0
              (maxLoop_state (minimax n) d β
                (fun g1 d1 m1 a1 b1 v1 mv1 g1' hh => ih g1 d1 m1 a1 b1 v1 mv1 g1' hh)
                _ _ _ _ _ _ _ _ (fun q hq => mem_empty_cells hq) h)
          · exact sameCore_trans hg0
              (minLoop_state (minimax n) d α
                (fun g1 d1 m1 a1 b1 v1 mv1 g1' hh => ih g1 d1 m1 a1 b1 v1 mv1 g1' hh)
                _ _ _ _ _ _ _ _ (fun q hq => mem_empty_cells hq) h)

/-!
## `fMinimax` computes the `(score, move)` of `minimax`
-/

lemma maxLoop_fast
    (recA : TicTacToe → Nat → Bool → Score → Score →
      Option (Score × Option (Nat × Nat) × TicTacToe))
    (recF : Board → Nat → Bool → Score → Score →
      Option (Score × Option (Nat × Nat)))
    (depth : Nat) (beta : Score)
    (HrecS : ∀ g d m α β v mv g', recA g d m α β = some (v, mv, g') →
      SameCore g g')
    (Hrec : ∀ g d m α β, (recA g d m α β).map (fun t => (t.1, t.2.1)) =
      recF g.board d m α β) :
    ∀ (ms : List (Nat × Nat)) (bA : Score) best (α : Score) g,
      (∀ p ∈ ms, getCell g.board p.1 p.2 = Mark.E) →
      (maxLoop recA depth beta ms bA best α g).map (fun t => (t.1, t.2.1)) =
        fMaxLoop recF depth beta ms bA best α g.board := by
  intro ms
  induction ms with
  | nil => intro bA best α g _; simp [maxLoop, fMaxLoop]
  | cons p rest ih =>
    intro bA best α g hmem
    simp only [maxLoop, fMaxLoop]
    rw [fastSet_eq]
    have hch := Hrec { g with board := setCell g.board p.1 p.2 Mark.O }
      (depth + 1) false α beta
    cases hr : recA { g with board := setCell g.board p.1 p.2 Mark.O }
        (depth + 1) false α beta with
    | none =>
      rw [hr] at hch
      simp only [Option.map_none'] at hch
      simp only [hr, ← hch, Option.map_none']
    | some t =>
      obtain ⟨s, mvc, g2⟩ := t
      rw [hr] at hch
      simp only [Option.map_some'] at hch
      simp only [hr, ← hch]
      have hg2core : SameCore { g with board := setCell g.board p.1 p.2 Mark.O } g2 :=
        HrecS _ _ _ _ _ _ _ _ hr
      have hg3 : setCell g2.board p.1 p.2 Mark.E = g.board := by
        rw [show g2.board = setCell g.board p.1 p.2 Mark.O from hg2core.1]
        exact setCell_clear Mark.O (hmem p (List.mem_cons_self p rest))
      split
      · simp
      · rw [← hg3]
        exact ih _ _ _ _ (fun q hq => by
          show getCell (setCell g2.board p.1 p.2 Mark.E) q.1 q.2 = Mark.E
          rw [hg3]
          exact hmem q (List.mem_cons_of_mem p hq))

lemma minLoop_fast
    (recA : TicTacToe → Nat → Bool → Score → Score →
      Option (Score × Option (Nat × Nat) × TicTacToe))
    (recF : Board → Nat → Bool → Score → Score →
      Option (Score × Option (Nat × Nat)))
    (depth : Nat) (alpha : Score)
    (HrecS : ∀ g d m α β v mv g', recA g d m α β = some (v, mv, g') →
      SameCore g g')
    (Hrec : ∀ g d m α β, (recA g d m α β).map (fun t => (t.1, t.2.1)) =
      recF g.board d m α β) :
    ∀ (ms : List (Nat × Nat)) (bA : Score) best (β : Score) g,
      (∀ p ∈ ms, getCell g.board p.1 p.2 = Mark.E) →
      (minLoop recA depth alpha ms bA best β g).map (fun t => (t.1, t.2.1)) =
        fMinLoop recF depth alpha ms bA best β g.board := by
  intro ms
  induction ms with
  | nil => intro bA best β g _; simp [minLoop, fMinLoop]
  | cons p rest ih =>
    intro bA best β g hmem
    simp only [minLoop, fMinLoop]
    rw [fastSet_eq]
    have hch := Hrec { g with board := setCell g.board p.1 p.2 Mark.X }
      (depth + 1) true alpha β
    cases hr : recA { g with board := setCell g.board p.1 p.2 Mark.X }
        (depth + 1) true alpha β with
    | none =>
      rw [hr] at hch
      simp only [Option.map_none'] at hch
      simp only [hr, ← hch, Option.map_none']
    | some t =>
      obtain ⟨s, mvc, g2⟩ := t
      rw [hr] at hch
      simp only [Option.map_some'] at hch
      simp only [hr, ← hch]
      have hg2core : SameCore { g with board := setCell g.board p.1 p.2 Mark.X } g2 :=
        HrecS _ _ _ _ _ _ _ _ hr
      have hg3 : setCell g2.board p.1 p.2 Mark.E = g.board := by
        rw [show g2.board = setCell g.board p.1 p.2 Mark.X from hg2core.1]
        exact setCell_clear Mark.X (hmem p (List.mem_cons_self p rest))
      split
      · simp
      · rw [← hg3]
        exact ih _ _ _ _ (fun q hq => by
          show getCell (setCell g2.board p.1 p.2 Mark.E) q.1 q.2 = Mark.E
          rw [hg3]
          exact hmem q (List.mem_cons_of_mem p hq))

/-- `fMinimax` on the board of a state computes exactly the
`(score, move)` pair of `minimax` on that state. -/
lemma minimax_fast : ∀ (fuel : Nat) (g : TicTacToe) (d : Nat) (m : Bool)
    (α β : Score),
    (minimax fuel g d m α β).map (fun t => (t.1, t.2.1)) =
      fMinimax fuel g.board d m α β := by
  intro fuel
  induction fuel with
  | zero => intro g d m α β; simp [minimax, fMinimax]
  | succ n ih =>
    intro g d m α β
    simp only [minimax, fMinimax]
    rw [fastCheck_eq, fastCheck_eq, fastEmpties_eq]
    by_cases hO : check_winner g.board Mark.O = true
    · simp [hO]
    · simp only [hO, if_false, Bool.false_eq_true]
      by_cases hX : check_winner g.board Mark.X = true
      · simp [hX]
      · simp only [hX, if_false, Bool.false_eq_true]
        by_cases hE : get_empty_cells g.board = []
        · simp [hE]
        · simp only [hE, if_false]
          cases m with
          | true =>
            simp only [if_true]
            exact maxLoop_fast (minimax n) (fMinimax n) d β
              (fun g1 d1 m1 a1 b1 v1 mv1 g1' hh =>
                minimax_state n g1 d1 m1 a1 b1 v1 mv1 g1' hh)
              (fun g1 d1 m1 a1 b1 => ih g1 d1 m1 a1 b1)
              _ _ _ _ _ (fun q hq => mem_empty_cells hq)
          | false =>
            simp only [Bool.false_eq_true, if_false]
            exact minLoop_fast (minimax n) (fMinimax n) d α
              (fun g1 d1 m1 a1 b1 v1 mv1 g1' hh =>
                minimax_state n g1 d1 m1 a1 b1 v1 mv1 g1' hh)
              (fun g1 d1 m1 a1 b1 => ih g1 d1 m1 a1 b1)
              _ _ _ _ _ (fun q hq => mem_empty_cells hq)

/-!
## Evaluating one committed move and one turn of optimal play
-/

/-- `make_move` on a live game, in-range coordinates, an empty target
cell, a non-winning move and a non-filling move: the mark is placed,
the move counter incremented and the turn toggled. -/
lemma make_move_success (g : TicTacToe) (r c : Nat) (pl : Mark)
    (hgo : g.game_over = false)
    (hr : pyIdx g.board.length (r : Int) = some r)
    (hc : pyIdx ((g.board.getD r []).length) (c : Int) = some c)
    (hcell : getCell g.board r c = Mark.E)
    (hwin : check_winner (setCell g.board r c pl) pl = false)
    (hnf : g.moves_made + 1 ≠ g.max_moves) :
    make_move g (r : Int) (c : Int) pl =
      some (true,
        { g with
          board := setCell g.board r c pl
          moves_made := g.moves_made + 1
          current_player := if pl = Mark.X then Mark.O else Mark.X }) := by
  simp only [make_move, hgo, hr, hc, hcell, hwin, Bool.false_eq_true,
    if_false, ne_eq, not_true_eq_false, if_true]
  simp [hnf]

/-- `make_move` on the ninth (board-filling) move with no winning
line: the game is marked over as a draw. -/
lemma make_move_draw (g : TicTacToe) (r c : Nat) (pl : Mark)
    (hgo : g.game_over = false)
    (hr : pyIdx g.board.length (r : Int) = some r)
    (hc : pyIdx ((g.board.getD r []).length) (c : Int) = some c)
    (hcell : getCell g.board r c = Mark.E)
    (hwin : check_winner (setCell g.board r c pl) pl = false)
    (hf : g.moves_made + 1 = g.max_moves) :
    make_move g (r : Int) (c : Int) pl =
      some (true,
        { g with
          board := setCell g.board r c pl
          moves_made := g.moves_made + 1
          game_over := true
          draws := g.draws + 1
          current_player := if pl = Mark.X then Mark.O else Mark.X }) := by
  simp only [make_move, hgo, hr, hc, hcell, hwin, Bool.false_eq_true,
    if_false, ne_eq, not_true_eq_false, if_true]
  simp [hf]

/-- One optimal-play turn for `'X'` whose chosen move neither wins nor
fills the board. -/
lemma step_X (g : TicTacToe) (r c : Nat) (sc : Score)
    (hcp : g.current_player = Mark.X)
    (hs : fMinimax 10 g.board 0 false ⊥ ⊤ = some (sc, some (r, c)))
    (hgo : g.game_over = false)
    (hr : pyIdx g.board.length (r : Int) = some r)
    (hc : pyIdx ((g.board.getD r []).length) (c : Int) = some c)
    (hcell : getCell g.board r c = Mark.E)
    (hwin : check_winner (setCell g.board r c Mark.X) Mark.X = false)
    (hnf : g.moves_made + 1 ≠ g.max_moves) :
    ∃ g', step g = some g' ∧ g'.board = setCell g.board r c Mark.X ∧
      g'.current_player = Mark.O ∧ g'.game_over = false ∧
      g'.winner = g.winner ∧ g'.moves_made = g.moves_made + 1 ∧
      g'.max_moves = g.max_moves := by
  have hq := minimax_fast 10 g 0 false ⊥ ⊤
  rw [hs] at hq
  cases hmm : minimax 10 g 0 false ⊥ ⊤ with
  | none => rw [hmm] at hq; exact absurd hq (by simp)
  | some t =>
    obtain ⟨s, mv, g1⟩ := t
    rw [hmm] at hq
    simp only [Option.map_some', Option.some.injEq, Prod.mk.injEq] at hq
    obtain ⟨hsv, hmv⟩ := hq
    subst hmv
    have hcore := minimax_state 10 g 0 false ⊥ ⊤ s _ g1 hmm
    have h1 : make_move g1 (r : Int) (c : Int) Mark.X =
        some (true,
          { g1 with
            board := setCell g1.board r c Mark.X
            moves_made := g1.moves_made + 1
            current_player := Mark.O }) := by
      have := make_move_success g1 r c Mark.X
        (hcore.2.2.1.trans hgo)
        (by rw [hcore.1]; exact hr)
        (by rw [hcore.1]; exact hc)
        (by rw [hcore.1]; exact hcell)
        (by rw [hcore.1]; exact hwin)
        (by rw [hcore.2.2.2.2.2.1, hcore.2.2.2.2.2.2.1]; exact hnf)
      simpa using this
    refine ⟨{ g1 with board := setCell g1.board r c Mark.X, moves_made := g1.moves_made + 1, current_player := Mark.O }, ?_, ?_, rfl, ?_, ?_, ?_, ?_⟩
    · simp [step, hcp, hmm, h1]
    · show setCell g1.board r c Mark.X = setCell g.board r c Mark.X
      rw [hcore.1]
    · exact hcore.2.2.1.trans hgo
    · exact hcore.2.2.2.1
    · show g1.moves_made + 1 = g.moves_made + 1
      rw [hcore.2.2.2.2.2.1]
    · exact hcore.2.2.2.2.2.2.1

/-- One optimal-play turn for `'O'` whose chosen move neither wins nor
fills the board. -/
lemma step_O (g : TicTacToe) (r c : Nat) (sc : Score)
    (hcp : g.current_player = Mark.O)
    (hs : fMinimax 10 g.board 0 true ⊥ ⊤ = some (sc, some (r, c)))
    (hgo : g.game_over = false)
    (hr : pyIdx g.board.length (r : Int) = some r)
    (hc : pyIdx ((g.board.getD r []).length) (c : Int) = some c)
    (hcell : getCell g.board r c = Mark.E)
    (hwin : check_winner (setCell g.board r c Mark.O) Mark.O = false)
    (hnf : g.moves_made + 1 ≠ g.max_moves) :
    ∃ g', step g = some g' ∧ g'.board = setCell g.board r c Mark.O ∧
      g'.current_player = Mark.X ∧ g'.game_over = false ∧
      g'.winner = g.winner ∧ g'.moves_made = g.moves_made + 1 ∧
      g'.max_moves = g.max_moves := by
  have hq := minimax_fast 10 g 0 true ⊥ ⊤
  rw [hs] at hq
  cases hmm : minimax 10 g 0 true ⊥ ⊤ with
  | none => rw [hmm] at hq; exact absurd hq (by simp)
  | some t =>
    obtain ⟨s, mv, g1⟩ := t
    rw [hmm] at hq
    simp only [Option.map_some', Option.some.injEq, Prod.mk.injEq] at hq
    obtain ⟨hsv, hmv⟩ := hq
    subst hmv
    have hcore := minimax_state 10 g 0 true ⊥ ⊤ s _ g1 hmm
    have h1 : make_move g1 (r : Int) (c : Int) Mark.O =
        some (true,
          { g1 with
            board := setCell g1.board r c Mark.O
            moves_made := g1.moves_made + 1
            current_player := Mark.X }) := by
      have := make_move_success g1 r c Mark.O
        (hcore.2.2.1.trans hgo)
        (by rw [hcore.1]; exact hr)
        (by rw [hcore.1]; exact hc)
        (by rw [hcore.1]; exact hcell)
        (by rw [hcore.1]; exact hwin)
        (by rw [hcore.2.2.2.2.2.1, hcore.2.2.2.2.2.2.1]; exact hnf)
      simpa using this
    refine ⟨{ g1 with board := setCell g1.board r c Mark.O, moves_made := g1.moves_made + 1, current_player := Mark.X }, ?_, ?_, rfl, ?_, ?_, ?_, ?_⟩
    · simp [step, hcp, hmm, h1]
    · show setCell g1.board r c Mark.O = setCell g.board r c Mark.O
      rw [hcore.1]
    · exact hcore.2.2.1.trans hgo
    · exact hcore.2.2.2.1
    · show g1.moves_made + 1 = g.moves_made + 1
      rw [hcore.2.2.2.2.2.1]
    · exact hcore.2.2.2.2.2.2.1

/-- The final optimal-play turn: `'X'` fills the board without a
winning line and the game ends in a draw. -/
lemma step_X_draw (g : TicTacToe) (r c : Nat) (sc : Score)
    (hcp : g.current_player = Mark.X)
    (hs : fMinimax 10 g.board 0 false ⊥ ⊤ = some (sc, some (r, c)))
    (hgo : g.game_over = false)
    (hr : pyIdx g.board.length (r : Int) = some r)
    (hc : pyIdx ((g.board.getD r []).length) (c : Int) = some c)
    (hcell : getCell g.board r c = Mark.E)
    (hwin : check_winner (setCell g.board r c Mark.X) Mark.X = false)
    (hf : g.moves_made + 1 = g.max_moves) :
    ∃ g', step g = some g' ∧ g'.game_over = true ∧
      g'.winner = g.winner ∧ g'.draws = g.draws + 1 := by
  have hq := minimax_fast 10 g 0 false ⊥ ⊤
  rw [hs] at hq
  cases hmm : minimax 10 g 0 false ⊥ ⊤ with
  | none => rw [hmm] at hq; exact absurd hq (by simp)
  | some t =>
    obtain ⟨s, mv, g1⟩ := t
    rw [hmm] at hq
    simp only [Option.map_some', Option.some.injEq, Prod.mk.injEq] at hq
    obtain ⟨hsv, hmv⟩ := hq
    subst hmv
    have hcore := minimax_state 10 g 0 false ⊥ ⊤ s _ g1 hmm
    have h1 : make_move g1 (r : Int) (c : Int) Mark.X =
        some (true,
          { g1 with
            board := setCell g1.board r c Mark.X
            moves_made := g1.moves_made + 1
            game_over := true
            draws := g1.draws + 1
            current_player := Mark.O }) := by
      have := make_move_draw g1 r c Mark.X
        (hcore.2.2.1.trans hgo)
        (by rw [hcore.1]; exact hr)
        (by rw [hcore.1]; exact hc)
        (by rw [hcore.1]; exact hcell)
        (by rw [hcore.1]; exact hwin)
        (by rw [hcore.2.2.2.2.2.1, hcore.2.2.2.2.2.2.1]; exact hf)
      simpa using this
    refine ⟨{ g1 with board := setCell g1.board r c Mark.X, moves_made := g1.moves_made + 1, game_over := true, draws := g1.draws + 1, current_player := Mark.O }, ?_, rfl, ?_, ?_⟩
    · simp [step, hcp, hmm, h1]
    · exact hcore.2.2.2.1
    · show g1.draws + 1 = g.draws + 1
      rw [hcore.2.2.2.2.2.2.2.2.2]


/-!
## The nine optimal-play searches, evaluated on `fMinimax`

The first two turns are the large searches (20866 and 2788 nodes), so
they are split at the root: one `decide` lemma per root child, and a
symbolic one-step lemma for each loop iteration, keeping every single
declaration's kernel evaluation small.
-/

/-- One non-breaking iteration of the minimizing loop, given the
child's result. -/
lemma fMinLoop_one
    (rec : Board → Nat → Bool → Score → Score →
      Option (Score × Option (Nat × Nat)))
    (depth : Nat) (alpha : Score) (p : Nat × Nat) (rest : List (Nat × Nat))
    (bA : Score) (best : Option (Nat × Nat)) (beta : Score) (b : Board)
    (s : Score) (m : Option (Nat × Nat))
    (hc : rec (fastSet b p.1 p.2 Mark.X) (depth + 1) true alpha beta
      = some (s, m))
    (hbrk : ¬ min beta s ≤ alpha) :
    fMinLoop rec depth alpha (p :: rest) bA best beta b
      = fMinLoop rec depth alpha rest (if s < bA then s else bA)
          (if s < bA then some p else best) (min beta s) b := by
  simp only [fMinLoop, hc]
  rw [if_neg hbrk]

/-- One non-breaking iteration of the maximizing loop, given the
child's result. -/
lemma fMaxLoop_one
    (rec : Board → Nat → Bool → Score → Score →
      Option (Score × Option (Nat × Nat)))
    (depth : Nat) (beta : Score) (p : Nat × Nat) (rest : List (Nat × Nat))
    (bA : Score) (best : Option (Nat × Nat)) (alpha : Score) (b : Board)
    (s : Score) (m : Option (Nat × Nat))
    (hc : rec (fastSet b p.1 p.2 Mark.O) (depth + 1) false alpha beta
      = some (s, m))
    (hbrk : ¬ beta ≤ max alpha s) :
    fMaxLoop rec depth beta (p :: rest) bA best alpha b
      = fMaxLoop rec depth beta rest (if bA < s then s else bA)
          (if bA < s then some p else best) (max alpha s) b := by
  simp only [fMaxLoop, hc]
  rw [if_neg hbrk]

set_option maxRecDepth 20000 in
set_option maxHeartbeats 200000000 in
lemma t1c1 : fMinimax 9 [[X,E,E],[E,E,E],[E,E,E]] 1 true ⊥ ⊤ = some (iv 0, some (1, 1)) := by decide

set_option maxRecDepth 20000 in
set_option maxHeartbeats 200000000 in
lemma t1c2 : fMinimax 9 [[E,X,E],[E,E,E],[E,E,E]] 1 true ⊥ (iv 0) = some (iv 0, some (0, 0)) := by decide

set_option maxRecDepth 20000 in
set_option maxHeartbeats 200000000 in
lemma t1c3 : fMinimax 9 [[E,E,X],[E,E,E],[E,E,E]] 1 true ⊥ (iv 0) = some (iv 0, some (1, 1)) := by decide

set_option maxRecDepth 20000 in
set_option maxHeartbeats 200000000 in
lemma t1c4 : fMinimax 9 [[E,E,E],[X,E,E],[E,E,E]] 1 true ⊥ (iv 0) = some (iv 0, some (0, 0)) := by decide

set_option maxRecDepth 20000 in
set_option maxHeartbeats 200000000 in
lemma t1c5 : fMinimax 9 [[E,E,E],[E,X,E],[E,E,E]] 1 true ⊥ (iv 0) = some (iv 0, some (0, 0)) := by decide

set_option maxRecDepth 20000 in
set_option maxHeartbeats 200000000 in
lemma t1c6 : fMinimax 9 [[E,E,E],[E,E,X],[E,E,E]] 1 true ⊥ (iv 0) = some (iv 0, some (0, 2)) := by decide

set_option maxRecDepth 20000 in
set_option maxHeartbeats 200000000 in
lemma t1c7 : fMinimax 9 [[E,E,E],[E,E,E],[X,E,E]] 1 true ⊥ (iv 0) = some (iv 0, some (1, 1)) := by decide

set_option maxRecDepth 20000 in
set_option maxHeartbeats 200000000 in
lemma t1c8 : fMinimax 9 [[E,E,E],[E,E,E],[E,X,E]] 1 true ⊥ (iv 0) = some (iv 0, some (0, 1)) := by decide

set_option maxRecDepth 20000 in
set_option maxHeartbeats 200000000 in
lemma t1c9 : fMinimax 9 [[E,E,E],[E,E,E],[E,E,X]] 1 true ⊥ (iv 0) = some (iv 0, some (1, 1)) := by decide

lemma t1s1 : fMinLoop (fMinimax 9) 0 ⊥
    [(0,0),(0,1),(0,2),(1,0),(1,1),(1,2),(2,0),(2,1),(2,2)] ⊤ none ⊤
    [[E,E,E],[E,E,E],[E,E,E]]
    = fMinLoop (fMinimax 9) 0 ⊥
    [(0,1),(0,2),(1,0),(1,1),(1,2),(2,0),(2,1),(2,2)] (iv 0) (some (0,0))
    (iv 0) [[E,E,E],[E,E,E],[E,E,E]] :=
  (fMinLoop_one (fMinimax 9) 0 ⊥ (0,0)
    [(0,1),(0,2),(1,0),(1,1),(1,2),(2,0),(2,1),(2,2)] ⊤ none ⊤
    [[E,E,E],[E,E,E],[E,E,E]] (iv 0) (some (1,1)) t1c1 (by decide)).trans rfl

lemma t1s2 : fMinLoop (fMinimax 9) 0 ⊥
    [(0,1),(0,2),(1,0),(1,1),(1,2),(2,0),(2,1),(2,2)] (iv 0) (some (0,0))
    (iv 0) [[E,E,E],[E,E,E],[E,E,E]]
    = fMinLoop (fMinimax 9) 0 ⊥
    [(0,2),(1,0),(1,1),(1,2),(2,0),(2,1),(2,2)] (iv 0) (some (0,0))
    (iv 0) [[E,E,E],[E,E,E],[E,E,E]] :=
  (fMinLoop_one (fMinimax 9) 0 ⊥ (0,1)
    [(0,2),(1,0),(1,1),(1,2),(2,0),(2,1),(2,2)] (iv 0) (some (0,0)) (iv 0)
    [[E,E,E],[E,E,E],[E,E,E]] (iv 0) (some (0,0)) t1c2 (by decide)).trans rfl

lemma t1s3 : fMinLoop (fMinimax 9) 0 ⊥
    [(0,2),(1,0),(1,1),(1,2),(2,0),(2,1),(2,2)] (iv 0) (some (0,0))
    (iv 0) [[E,E,E],[E,E,E],[E,E,E]]
    = fMinLoop (fMinimax 9) 0 ⊥
    [(1,0),(1,1),(1,2),(2,0),(2,1),(2,2)] (iv 0) (some (0,0))
    (iv 0) [[E,E,E],[E,E,E],[E,E,E]] :=
  (fMinLoop_one (fMinimax 9) 0 ⊥ (0,2)
    [(1,0),(1,1),(1,2),(2,0),(2,1),(2,2)] (iv 0) (some (0,0)) (iv 0)
    [[E,E,E],[E,E,E],[E,E,E]] (iv 0) (some (1,1)) t1c3 (by decide)).trans rfl

lemma t1s4 : fMinLoop (fMinimax 9) 0 ⊥
    [(1,0),(1,1),(1,2),(2,0),(2,1),(2,2)] (iv 0) (some (0,0))
    (iv 0) [[E,E,E],[E,E,E],[E,E,E]]
    = fMinLoop (fMinimax 9) 0 ⊥
    [(1,1),(1,2),(2,0),(2,1),(2,2)] (iv 0) (some (0,0))
    (iv 0) [[E,E,E],[E,E,E],[E,E,E]] :=
  (fMinLoop_one (fMinimax 9) 0 ⊥ (1,0)
    [(1,1),(1,2),(2,0),(2,1),(2,2)] (iv 0) (some (0,0)) (iv 0)
    [[E,E,E],[E,E,E],[E,E,E]] (iv 0) (some (0,0)) t1c4 (by decide)).trans rfl

lemma t1s5 : fMinLoop (fMinimax 9) 0 ⊥
    [(1,1),(1,2),(2,0),(2,1),(2,2)] (iv 0) (some (0,0))
    (iv 0) [[E,E,E],[E,E,E],[E,E,E]]
    = fMinLoop (fMinimax 9) 0 ⊥
    [(1,2),(2,0),(2,1),(2,2)] (iv 0) (some (0,0))
    (iv 0) [[E,E,E],[E,E,E],[E,E,E]] :=
  (fMinLoop_one (fMinimax 9) 0 ⊥ (1,1)
    [(1,2),(2,0),(2,1),(2,2)] (iv 0) (some (0,0)) (iv 0)
    [[E,E,E],[E,E,E],[E,E,E]] (iv 0) (some (0,0)) t1c5 (by decide)).trans rfl

lemma t1s6 : fMinLoop (fMinimax 9) 0 ⊥
    [(1,2),(2,0),(2,1),(2,2)] (iv 0) (some (0,0))
    (iv 0) [[E,E,E],[E,E,E],[E,E,E]]
    = fMinLoop (fMinimax 9) 0 ⊥
    [(2,0),(2,1),(2,2)] (iv 0) (some (0,0))
    (iv 0) [[E,E,E],[E,E,E],[E,E,E]] :=
  (fMinLoop_one (fMinimax 9) 0 ⊥ (1,2)
    [(2,0),(2,1),(2,2)] (iv 0) (some (0,0)) (iv 0)
    [[E,E,E],[E,E,E],[E,E,E]] (iv 0) (some (0,2)) t1c6 (by decide)).trans rfl

lemma t1s7 : fMinLoop (fMinimax 9) 0 ⊥
    [(2,0),(2,1),(2,2)] (iv 0) (some (0,0))
    (iv 0) [[E,E,E],[E,E,E],[E,E,E]]
    = fMinLoop (fMinimax 9) 0 ⊥
    [(2,1),(2,2)] (iv 0) (some (0,0))
    (iv 0) [[E,E,E],[E,E,E],[E,E,E]] :=
  (fMinLoop_one (fMinimax 9) 0 ⊥ (2,0)
    [(2,1),(2,2)] (iv 0) (some (0,0)) (iv 0)
    [[E,E,E],[E,E,E],[E,E,E]] (iv 0) (some (1,1)) t1c7 (by decide)).trans rfl

lemma t1s8 : fMinLoop (fMinimax 9) 0 ⊥
    [(2,1),(2,2)] (iv 0) (some (0,0))
    (iv 0) [[E,E,E],[E,E,E],[E,E,E]]
    = fMinLoop (fMinimax 9) 0 ⊥
    [(2,2)] (iv 0) (some (0,0))
    (iv 0) [[E,E,E],[E,E,E],[E,E,E]] :=
  (fMinLoop_one (fMinimax 9) 0 ⊥ (2,1)
    [(2,2)] (iv 0) (some (0,0)) (iv 0)
    [[E,E,E],[E,E,E],[E,E,E]] (iv 0) (some (0,1)) t1c8 (by decide)).trans rfl

lemma t1s9 : fMinLoop (fMinimax 9) 0 ⊥
    [(2,2)] (iv 0) (some (0,0))
    (iv 0) [[E,E,E],[E,E,E],[E,E,E]]
    = some (iv 0, some (0, 0)) :=
  (fMinLoop_one (fMinimax 9) 0 ⊥ (2,2) [] (iv 0) (some (0,0)) (iv 0)
    [[E,E,E],[E,E,E],[E,E,E]] (iv 0) (some (1,1)) t1c9 (by decide)).trans rfl

lemma fturn1 : fMinimax 10 [[Mark.E,Mark.E,Mark.E],[Mark.E,Mark.E,Mark.E],[Mark.E,Mark.E,Mark.E]] 0 false ⊥ ⊤ = some (iv 0, some (0, 0)) := by
  have hO : fastCheck [[E,E,E],[E,E,E],[E,E,E]] Mark.O = false := by decide
  have hX : fastCheck [[E,E,E],[E,E,E],[E,E,E]] Mark.X = false := by decide
  have hEm : fastEmpties [[E,E,E],[E,E,E],[E,E,E]]
      = [(0,0),(0,1),(0,2),(1,0),(1,1),(1,2),(2,0),(2,1),(2,2)] := by decide
  rw [show (10 : Nat) = 9 + 1 from rfl]
  rw [fMinimax.eq_2]
  rw [hO, if_neg Bool.false_ne_true]
  rw [hX, if_neg Bool.false_ne_true]
  rw [hEm]
  rw [if_neg (List.cons_ne_nil _ _)]
  rw [if_neg Bool.false_ne_true]
  rw [t1s1, t1s2, t1s3, t1s4, t1s5, t1s6, t1s7, t1s8, t1s9]

set_option maxRecDepth 20000 in
set_option maxHeartbeats 200000000 in
lemma t2c1 : fMinimax 9 [[X,O,E],[E,E,E],[E,E,E]] 1 false ⊥ ⊤ = some (iv (-4), some (1, 0)) := by decide

set_option maxRecDepth 20000 in
set_option maxHeartbeats 200000000 in
lemma t2c2 : fMinimax 9 [[X,E,O],[E,E,E],[E,E,E]] 1 false (iv (-4)) ⊤ = some (iv (-4), some (1, 0)) := by decide

set_option maxRecDepth 20000 in
set_option maxHeartbeats 200000000 in
lemma t2c3 : fMinimax 9 [[X,E,E],[O,E,E],[E,E,E]] 1 false (iv (-4)) ⊤ = some (iv (-4), some (0, 1)) := by decide

set_option maxRecDepth 20000 in
set_option maxHeartbeats 200000000 in
lemma t2c4 : fMinimax 9 [[X,E,E],[E,O,E],[E,E,E]] 1 false (iv (-4)) ⊤ = some (iv 0, some (0, 1)) := by decide

set_option maxRecDepth 20000 in
set_option maxHeartbeats 200000000 in
lemma t2c5 : fMinimax 9 [[X,E,E],[E,E,O],[E,E,E]] 1 false (iv 0) ⊤ = some (iv 0, some (0, 2)) := by decide

set_option maxRecDepth 20000 in
set_option maxHeartbeats 200000000 in
lemma t2c6 : fMinimax 9 [[X,E,E],[E,E,E],[O,E,E]] 1 false (iv 0) ⊤ = some (iv (-2), some (0, 1)) := by decide

set_option maxRecDepth 20000 in
set_option maxHeartbeats 200000000 in
lemma t2c7 : fMinimax 9 [[X,E,E],[E,E,E],[E,O,E]] 1 false (iv 0) ⊤ = some (iv 0, some (0, 1)) := by decide

set_option maxRecDepth 20000 in
set_option maxHeartbeats 200000000 in
lemma t2c8 : fMinimax 9 [[X,E,E],[E,E,E],[E,E,O]] 1 false (iv 0) ⊤ = some (iv 0, some (0, 2)) := by decide

lemma t2s1 : fMaxLoop (fMinimax 9) 0 ⊤
    [(0,1),(0,2),(1,0),(1,1),(1,2),(2,0),(2,1),(2,2)] ⊥ none ⊥
    [[X,E,E],[E,E,E],[E,E,E]]
    = fMaxLoop (fMinimax 9) 0 ⊤
    [(0,2),(1,0),(1,1),(1,2),(2,0),(2,1),(2,2)] (iv (-4)) (some (0,1))
    (iv (-4)) [[X,E,E],[E,E,E],[E,E,E]] :=
  (fMaxLoop_one (fMinimax 9) 0 ⊤ (0,1)
    [(0,2),(1,0),(1,1),(1,2),(2,0),(2,1),(2,2)] ⊥ none ⊥
    [[X,E,E],[E,E,E],[E,E,E]] (iv (-4)) (some (1,0)) t2c1 (by decide)).trans rfl

lemma t2s2 : fMaxLoop (fMinimax 9) 0 ⊤
    [(0,2),(1,0),(1,1),(1,2),(2,0),(2,1),(2,2)] (iv (-4)) (some (0,1))
    (iv (-4)) [[X,E,E],[E,E,E],[E,E,E]]
    = fMaxLoop (fMinimax 9) 0 ⊤
    [(1,0),(1,1),(1,2),(2,0),(2,1),(2,2)] (iv (-4)) (some (0,1))
    (iv (-4)) [[X,E,E],[E,E,E],[E,E,E]] :=
  (fMaxLoop_one (fMinimax 9) 0 ⊤ (0,2)
    [(1,0),(1,1),(1,2),(2,0),(2,1),(2,2)] (iv (-4)) (some (0,1)) (iv (-4))
    [[X,E,E],[E,E,E],[E,E,E]] (iv (-4)) (some (1,0)) t2c2 (by decide)).trans rfl

lemma t2s3 : fMaxLoop (fMinimax 9) 0 ⊤
    [(1,0),(1,1),(1,2),(2,0),(2,1),(2,2)] (iv (-4)) (some (0,1))
    (iv (-4)) [[X,E,E],[E,E,E],[E,E,E]]
    = fMaxLoop (fMinimax 9) 0 ⊤
    [(1,1),(1,2),(2,0),(2,1),(2,2)] (iv (-4)) (some (0,1))
    (iv (-4)) [[X,E,E],[E,E,E],[E,E,E]] :=
  (fMaxLoop_one (fMinimax 9) 0 ⊤ (1,0)
    [(1,1),(1,2),(2,0),(2,1),(2,2)] (iv (-4)) (some (0,1)) (iv (-4))
    [[X,E,E],[E,E,E],[E,E,E]] (iv (-4)) (some (0,1)) t2c3 (by decide)).trans rfl

lemma t2s4 : fMaxLoop (fMinimax 9) 0 ⊤
    [(1,1),(1,2),(2,0),(2,1),(2,2)] (iv (-4)) (some (0,1))
    (iv (-4)) [[X,E,E],[E,E,E],[E,E,E]]
    = fMaxLoop (fMinimax 9) 0 ⊤
    [(1,2),(2,0),(2,1),(2,2)] (iv 0) (some (1,1))
    (iv 0) [[X,E,E],[E,E,E],[E,E,E]] :=
  (fMaxLoop_one (fMinimax 9) 0 ⊤ (1,1)
    [(1,2),(2,0),(2,1),(2,2)] (iv (-4)) (some (0,1)) (iv (-4))
    [[X,E,E],[E,E,E],[E,E,E]] (iv 0) (some (0,1)) t2c4 (by decide)).trans rfl

lemma t2s5 : fMaxLoop (fMinimax 9) 0 ⊤
    [(1,2),(2,0),(2,1),(2,2)] (iv 0) (some (1,1))
    (iv 0) [[X,E,E],[E,E,E],[E,E,E]]
    = fMaxLoop (fMinimax 9) 0 ⊤
    [(2,0),(2,1),(2,2)] (iv 0) (some (1,1))
    (iv 0) [[X,E,E],[E,E,E],[E,E,E]] :=
  (fMaxLoop_one (fMinimax 9) 0 ⊤ (1,2)
    [(2,0),(2,1),(2,2)] (iv 0) (some (1,1)) (iv 0)
    [[X,E,E],[E,E,E],[E,E,E]] (iv 0) (some (0,2)) t2c5 (by decide)).trans rfl

lemma t2s6 : fMaxLoop (fMinimax 9) 0 ⊤
    [(2,0),(2,1),(2,2)] (iv 0) (some (1,1))
    (iv 0) [[X,E,E],[E,E,E],[E,E,E]]
    = fMaxLoop (fMinimax 9) 0 ⊤
    [(2,1),(2,2)] (iv 0) (some (1,1))
    (iv 0) [[X,E,E],[E,E,E],[E,E,E]] :=
  (fMaxLoop_one (fMinimax 9) 0 ⊤ (2,0)
    [(2,1),(2,2)] (iv 0) (some (1,1)) (iv 0)
    [[X,E,E],[E,E,E],[E,E,E]] (iv (-2)) (some (0,1)) t2c6 (by decide)).trans rfl

lemma t2s7 : fMaxLoop (fMinimax 9) 0 ⊤
    [(2,1),(2,2)] (iv 0) (some (1,1))
    (iv 0) [[X,E,E],[E,E,E],[E,E,E]]
    = fMaxLoop (fMinimax 9) 0 ⊤
    [(2,2)] (iv 0) (some (1,1))
    (iv 0) [[X,E,E],[E,E,E],[E,E,E]] :=
  (fMaxLoop_one (fMinimax 9) 0 ⊤ (2,1)
    [(2,2)] (iv 0) (some (1,1)) (iv 0)
    [[X,E,E],[E,E,E],[E,E,E]] (iv 0) (some (0,1)) t2c7 (by decide)).trans rfl

lemma t2s8 : fMaxLoop (fMinimax 9) 0 ⊤
    [(2,2)] (iv 0) (some (1,1))
    (iv 0) [[X,E,E],[E,E,E],[E,E,E]]
    = some (iv 0, some (1, 1)) :=
  (fMaxLoop_one (fMinimax 9) 0 ⊤ (2,2) [] (iv 0) (some (1,1)) (iv 0)
    [[X,E,E],[E,E,E],[E,E,E]] (iv 0) (some (0,2)) t2c8 (by decide)).trans rfl

lemma fturn2 : fMinimax 10 [[Mark.X,Mark.E,Mark.E],[Mark.E,Mark.E,Mark.E],[Mark.E,Mark.E,Mark.E]] 0 true ⊥ ⊤ = some (iv 0, some (1, 1)) := by
  have hO : fastCheck [[X,E,E],[E,E,E],[E,E,E]] Mark.O = false := by decide
  have hX : fastCheck [[X,E,E],[E,E,E],[E,E,E]] Mark.X = false := by decide
  have hEm : fastEmpties [[X,E,E],[E,E,E],[E,E,E]]
      = [(0,1),(0,2),(1,0),(1,1),(1,2),(2,0),(2,1),(2,2)] := by decide
  rw [show (10 : Nat) = 9 + 1 from rfl]
  rw [fMinimax.eq_2]
  rw [hO, if_neg Bool.false_ne_true]
  rw [hX, if_neg Bool.false_ne_true]
  rw [hEm]
  rw [if_neg (List.cons_ne_nil _ _)]
  rw [if_pos rfl]
  rw [t2s1, t2s2, t2s3, t2s4, t2s5, t2s6, t2s7, t2s8]

set_option maxRecDepth 20000 in
set_option maxHeartbeats 100000000 in
lemma fturn3 : fMinimax 10 [[Mark.X,Mark.E,Mark.E],[Mark.E,Mark.O,Mark.E],[Mark.E,Mark.E,Mark.E]] 0 false ⊥ ⊤ = some (iv 0, some (0, 1)) := by decide

set_option maxRecDepth 20000 in
set_option maxHeartbeats 50000000 in
lemma fturn4 : fMinimax 10 [[Mark.X,Mark.X,Mark.E],[Mark.E,Mark.O,Mark.E],[Mark.E,Mark.E,Mark.E]] 0 true ⊥ ⊤ = some (iv 0, some (0, 2)) := by decide

set_option maxRecDepth 20000 in
set_option maxHeartbeats 50000000 in
lemma fturn5 : fMinimax 10 [[Mark.X,Mark.X,Mark.O],[Mark.E,Mark.O,Mark.E],[Mark.E,Mark.E,Mark.E]] 0 false ⊥ ⊤ = some (iv 0, some (2, 0)) := by decide

set_option maxRecDepth 20000 in
set_option maxHeartbeats 50000000 in
lemma fturn6 : fMinimax 10 [[Mark.X,Mark.X,Mark.O],[Mark.E,Mark.O,Mark.E],[Mark.X,Mark.E,Mark.E]] 0 true ⊥ ⊤ = some (iv 0, some (1, 0)) := by decide

set_option maxRecDepth 20000 in
set_option maxHeartbeats 50000000 in
lemma fturn7 : fMinimax 10 [[Mark.X,Mark.X,Mark.O],[Mark.O,Mark.O,Mark.E],[Mark.X,Mark.E,Mark.E]] 0 false ⊥ ⊤ = some (iv 0, some (1, 2)) := by decide

set_option maxRecDepth 20000 in
set_option maxHeartbeats 50000000 in
lemma fturn8 : fMinimax 10 [[Mark.X,Mark.X,Mark.O],[Mark.O,Mark.O,Mark.X],[Mark.X,Mark.E,Mark.E]] 0 true ⊥ ⊤ = some (iv 0, some (2, 1)) := by decide

set_option maxRecDepth 20000 in
set_option maxHeartbeats 50000000 in
lemma fturn9 : fMinimax 10 [[Mark.X,Mark.X,Mark.O],[Mark.O,Mark.O,Mark.X],[Mark.X,Mark.O,Mark.E]] 0 false ⊥ ⊤ = some (iv 0, some (2, 2)) := by decide

/-- The deterministic optimal playout: nine turns from the initial
state, ending in the draw state. -/
lemma selfplay_chain : ∃ gf, playN 9 = some gf ∧ gf.game_over = true ∧
    gf.winner = none := by
  have hm0 : init.moves_made = 0 := rfl
  have hx0 : init.max_moves = 9 := rfl
  obtain ⟨g1, hs1, hb1, hcp1, hgo1, hw1, hm1, hx1⟩ :=
    step_X init 0 0 (iv 0) rfl fturn1 rfl (by decide) (by decide)
      rfl (by decide) (by decide)
  have hbl1 : g1.board = [[Mark.X,Mark.E,Mark.E],[Mark.E,Mark.E,Mark.E],[Mark.E,Mark.E,Mark.E]] := by
    rw [hb1]; rfl
  have hmv1 : g1.moves_made = 1 := by omega
  have hxv1 : g1.max_moves = 9 := by omega
  obtain ⟨g2, hs2, hb2, hcp2, hgo2, hw2, hm2, hx2⟩ :=
    step_O g1 1 1 (iv 0) hcp1 (by rw [hbl1]; exact fturn2) hgo1 (by rw [hbl1]; decide) (by rw [hbl1]; decide)
      (by rw [hbl1]; decide) (by rw [hbl1]; decide) (by rw [hmv1, hxv1]; decide)
  have hbl2 : g2.board = [[Mark.X,Mark.E,Mark.E],[Mark.E,Mark.O,Mark.E],[Mark.E,Mark.E,Mark.E]] := by
    rw [hb2, hbl1]; rfl
  have hmv2 : g2.moves_made = 2 := by omega
  have hxv2 : g2.max_moves = 9 := by omega
  obtain ⟨g3, hs3, hb3, hcp3, hgo3, hw3, hm3, hx3⟩ :=
    step_X g2 0 1 (iv 0) hcp2 (by rw [hbl2]; exact fturn3) hgo2 (by rw [hbl2]; decide) (by rw [hbl2]; decide)
      (by rw [hbl2]; decide) (by rw [hbl2]; decide) (by rw [hmv2, hxv2]; decide)
  have hbl3 : g3.board = [[Mark.X,Mark.X,Mark.E],[Mark.E,Mark.O,Mark.E],[Mark.E,Mark.E,Mark.E]] := by
    rw [hb3, hbl2]; rfl
  have hmv3 : g3.moves_made = 3 := by omega
  have hxv3 : g3.max_moves = 9 := by omega
  obtain ⟨g4, hs4, hb4, hcp4, hgo4, hw4, hm4, hx4⟩ :=
    step_O g3 0 2 (iv 0) hcp3 (by rw [hbl3]; exact fturn4) hgo3 (by rw [hbl3]; decide) (by rw [hbl3]; decide)
      (by rw [hbl3]; decide) (by rw [hbl3]; decide) (by rw [hmv3, hxv3]; decide)
  have hbl4 : g4.board = [[Mark.X,Mark.X,Mark.O],[Mark.E,Mark.O,Mark.E],[Mark.E,Mark.E,Mark.E]] := by
    rw [hb4, hbl3]; rfl
  have hmv4 : g4.moves_made = 4 := by omega
  have hxv4 : g4.max_moves = 9 := by omega
  obtain ⟨g5, hs5, hb5, hcp5, hgo5, hw5, hm5, hx5⟩ :=
    step_X g4 2 0 (iv 0) hcp4 (by rw [hbl4]; exact fturn5) hgo4 (by rw [hbl4]; decide) (by rw [hbl4]; decide)
      (by rw [hbl4]; decide) (by rw [hbl4]; decide) (by rw [hmv4, hxv4]; decide)
  have hbl5 : g5.board = [[Mark.X,Mark.X,Mark.O],[Mark.E,Mark.O,Mark.E],[Mark.X,Mark.E,Mark.E]] := by
    rw [hb5, hbl4]; rfl
  have hmv5 : g5.moves_made = 5 := by omega
  have hxv5 : g5.max_moves = 9 := by omega
  obtain ⟨g6, hs6, hb6, hcp6, hgo6, hw6, hm6, hx6⟩ :=
    step_O g5 1 0 (iv 0) hcp5 (by rw [hbl5]; exact fturn6) hgo5 (by rw [hbl5]; decide) (by rw [hbl5]; decide)
      (by rw [hbl5]; decide) (by rw [hbl5]; decide) (by rw [hmv5, hxv5]; decide)
  have hbl6 : g6.board = [[Mark.X,Mark.X,Mark.O],[Mark.O,Mark.O,Mark.E],[Mark.X,Mark.E,Mark.E]] := by
    rw [hb6, hbl5]; rfl
  have hmv6 : g6.moves_made = 6 := by omega
  have hxv6 : g6.max_moves = 9 := by omega
  obtain ⟨g7, hs7, hb7, hcp7, hgo7, hw7, hm7, hx7⟩ :=
    step_X g6 1 2 (iv 0) hcp6 (by rw [hbl6]; exact fturn7) hgo6 (by rw [hbl6]; decide) (by rw [hbl6]; decide)
      (by rw [hbl6]; decide) (by rw [hbl6]; decide) (by rw [hmv6, hxv6]; decide)
  have hbl7 : g7.board = [[Mark.X,Mark.X,Mark.O],[Mark.O,Mark.O,Mark.X],[Mark.X,Mark.E,Mark.E]] := by
    rw [hb7, hbl6]; rfl
  have hmv7 : g7.moves_made = 7 := by omega
  have hxv7 : g7.max_moves = 9 := by omega
  obtain ⟨g8, hs8, hb8, hcp8, hgo8, hw8, hm8, hx8⟩ :=
    step_O g7 2 1 (iv 0) hcp7 (by rw [hbl7]; exact fturn8) hgo7 (by rw [hbl7]; decide) (by rw [hbl7]; decide)
      (by rw [hbl7]; decide) (by rw [hbl7]; decide) (by rw [hmv7, hxv7]; decide)
  have hbl8 : g8.board = [[Mark.X,Mark.X,Mark.O],[Mark.O,Mark.O,Mark.X],[Mark.X,Mark.O,Mark.E]] := by
    rw [hb8, hbl7]; rfl
  have hmv8 : g8.moves_made = 8 := by omega
  have hxv8 : g8.max_moves = 9 := by omega
  obtain ⟨g9, hs9, hgo9, hw9, hd9⟩ :=
    step_X_draw g8 2 2 (iv 0) hcp8 (by rw [hbl8]; exact fturn9) hgo8 (by rw [hbl8]; decide) (by rw [hbl8]; decide)
      (by rw [hbl8]; decide) (by rw [hbl8]; decide) (by omega)
  have hp1 : playN 1 = some g1 := by
    rw [show playN 1 = (playN 0).bind step from rfl,
      show playN 0 = some init from rfl, Option.some_bind]
    exact hs1
  have hp2 : playN 2 = some g2 := by
    rw [show playN 2 = (playN 1).bind step from rfl, hp1, Option.some_bind]
    exact hs2
  have hp3 : playN 3 = some g3 := by
    rw [show playN 3 = (playN 2).bind step from rfl, hp2, Option.some_bind]
    exact hs3
  have hp4 : playN 4 = some g4 := by
    rw [show playN 4 = (playN 3).bind step from rfl, hp3, Option.some_bind]
    exact hs4
  have hp5 : playN 5 = some g5 := by
    rw [show playN 5 = (playN 4).bind step from rfl, hp4, Option.some_bind]
    exact hs5
  have hp6 : playN 6 = some g6 := by
    rw [show playN 6 = (playN 5).bind step from rfl, hp5, Option.some_bind]
    exact hs6
  have hp7 : playN 7 = some g7 := by
    rw [show playN 7 = (playN 6).bind step from rfl, hp6, Option.some_bind]
    exact hs7
  have hp8 : playN 8 = some g8 := by
    rw [show playN 8 = (playN 7).bind step from rfl, hp7, Option.some_bind]
    exact hs8
  have hp9 : playN 9 = some g9 := by
    rw [show playN 9 = (playN 8).bind step from rfl, hp8, Option.some_bind]
    exact hs9
  refine ⟨g9, hp9, hgo9, ?_⟩
  rw [hw9, hw8, hw7, hw6, hw5, hw4, hw3, hw2, hw1]
  rfl


/-!
## Support lemmas for the pruning-equivalence proof
-/

lemma if_lt_max (bA s : Score) : (if bA < s then s else bA) = max bA s := by
  by_cases h : bA < s
  · simp [h, max_eq_right h.le]
  · simp [h, max_eq_left (not_lt.mp h)]

lemma if_lt_min (bA s : Score) : (if s < bA then s else bA) = min bA s := by
  by_cases h : s < bA
  · simp [h, min_eq_right h.le]
  · simp [h, min_eq_left (not_lt.mp h)]

lemma iv_bot_lt (n : ℤ) : (⊥ : Score) < iv n :=
  WithBot.bot_lt_coe _

lemma iv_lt_top (n : ℤ) : iv n < (⊤ : Score) := by
  have h1 : ((n : WithTop ℤ) : Score) < ((⊤ : WithTop ℤ) : Score) :=
    WithBot.coe_lt_coe.mpr (WithTop.coe_lt_top n)
  exact h1

lemma plainMaxLoop_state
    (rec : TicTacToe → Nat → Bool →
      Option (Score × Option (Nat × Nat) × TicTacToe))
    (depth : Nat)
    (Hrec : ∀ g d m v mv g', rec g d m = some (v, mv, g') → SameCore g g') :
    ∀ (ms : List (Nat × Nat)) (bA : Score) best g v mv g',
      (∀ p ∈ ms, getCell g.board p.1 p.2 = Mark.E) →
      plainMaxLoop rec depth ms bA best g = some (v, mv, g') →
      SameCore g g' := by
  intro ms
  induction ms with
  | nil =>
    intro bA best g v mv g' _ h
    simp only [plainMaxLoop, Option.some.injEq, Prod.mk.injEq] at h
    rw [← h.2.2]
    exact sameCore_refl g
  | cons p rest ih =>
    intro bA best g v mv g' hmem h
    simp only [plainMaxLoop] at h
    cases hr : rec { g with board := setCell g.board p.1 p.2 Mark.O }
        (depth + 1) false with
    | none => simp only [hr] at h; exact Option.noConfusion h
    | some t =>
      obtain ⟨s, mv2, g2⟩ := t
      simp only [hr] at h
      have hc : SameCore { g with board := setCell g.board p.1 p.2 Mark.O } g2 :=
        Hrec _ _ _ _ _ _ hr
      have hcore3 :
          SameCore g { g2 with board := setCell g2.board p.1 p.2 Mark.E } := by
        refine ⟨?_, hc.2.1, hc.2.2.1, hc.2.2.2.1, hc.2.2.2.2.1,
          hc.2.2.2.2.2.1, hc.2.2.2.2.2.2.1, hc.2.2.2.2.2.2.2.1,
          hc.2.2.2.2.2.2.2.2.1, hc.2.2.2.2.2.2.2.2.2⟩
        show setCell g2.board p.1 p.2 Mark.E = g.board
        rw [show g2.board = setCell g.board p.1 p.2 Mark.O from hc.1]
        exact setCell_clear Mark.O (hmem p (List.mem_cons_self p rest))
      refine sameCore_trans hcore3 (ih _ _ _ _ _ _ ?_ h)
      intro q hq
      rw [hcore3.1]
      exact hmem q (List.mem_cons_of_mem p hq)

lemma plainMinLoop_state
    (rec : TicTacToe → Nat → Bool →
      Option (Score × Option (Nat × Nat) × TicTacToe))
    (depth : Nat)
    (Hrec : ∀ g d m v mv g', rec g d m = some (v, mv, g') → SameCore g g') :
    ∀ (ms : List (Nat × Nat)) (bA : Score) best g v mv g',
      (∀ p ∈ ms, getCell g.board p.1 p.2 = Mark.E) →
      plainMinLoop rec depth ms bA best g = some (v, mv, g') →
      SameCore g g' := by
  intro ms
  induction ms with
  | nil =>
    intro bA best g v mv g' _ h
    simp only [plainMinLoop, Option.some.injEq, Prod.mk.injEq] at h
    rw [← h.2.2]
    exact sameCore_refl g
  | cons p rest ih =>
    intro bA best g v mv g' hmem h
    simp only [plainMinLoop] at h
    cases hr : rec { g with board := setCell g.board p.1 p.2 Mark.X }
        (depth + 1) true with
    | none => simp only [hr] at h; exact Option.noConfusion h
    | some t =>
      obtain ⟨s, mv2, g2⟩ := t
      simp only [hr] at h
      have hc : SameCore { g with board := setCell g.board p.1 p.2 Mark.X } g2 :=
        Hrec _ _ _ _ _ _ hr
      have hcore3 :
          SameCore g { g2 with board := setCell g2.board p.1 p.2 Mark.E } := by
        refine ⟨?_, hc.2.1, hc.2.2.1, hc.2.2.2.1, hc.2.2.2.2.1,
          hc.2.2.2.2.2.1, hc.2.2.2.2.2.2.1, hc.2.2.2.2.2.2.2.1,
          hc.2.2.2.2.2.2.2.2.1, hc.2.2.2.2.2.2.2.2.2⟩
        show setCell g2.board p.1 p.2 Mark.E = g.board
        rw [show g2.board = setCell g.board p.1 p.2 Mark.X from hc.1]
        exact setCell_clear Mark.X (hmem p (List.mem_cons_self p rest))
      refine sameCore_trans hcore3 (ih _ _ _ _ _ _ ?_ h)
      intro q hq
      rw [hcore3.1]
      exact hmem q (List.mem_cons_of_mem p hq)

/-- A completed `minimaxPlain` call also restores every
non-instrumentation field. -/
lemma minimaxPlain_state : ∀ (fuel : Nat) (g : TicTacToe) (d : Nat)
    (m : Bool) v mv g',
    minimaxPlain fuel g d m = some (v, mv, g') → SameCore g g' := by
  intro fuel
  induction fuel with
  | zero => intro g d m v mv g' h; exact absurd h (by simp [minimaxPlain])
  | succ n ih =>
    intro g d m v mv g' h
    simp only [minimaxPlain] at h
    have hg0 : SameCore g
        { g with
          nodes_explored := g.nodes_explored + 1
          depth_reached := max g.depth_reached d } :=
      ⟨rfl, rfl, rfl, rfl, rfl, rfl, rfl, rfl, rfl, rfl⟩
    split at h
    · simp only [Option.some.injEq, Prod.mk.injEq] at h
      rw [← h.2.2]; exact hg0
    · split at h
      · simp only [Option.some.injEq, Prod.mk.injEq] at h
        rw [← h.2.2]; exact hg0
      · split at h
        · simp only [Option.some.injEq, Prod.mk.injEq] at h
          rw [← h.2.2]; exact hg0
        · split at h
          · exact sameCore_trans hg0
              (plainMaxLoop_state (minimaxPlain n) d
                (fun g1 d1 m1 v1 mv1 g1' hh => ih g1 d1 m1 v1 mv1 g1' hh)
                _ _ _ _ _ _ _ (fun q hq => mem_empty_cells hq) h)
          · exact sameCore_trans hg0
              (plainMinLoop_state (minimaxPlain n) d
                (fun g1 d1 m1 v1 mv1 g1' hh => ih g1 d1 m1 v1 mv1 g1' hh)
                _ _ _ _ _ _ _ (fun q hq => mem_empty_cells hq) h)

/-- The plain maximizing loop only raises its running maximum. -/
lemma plainMaxLoop_ge
    (rec : TicTacToe → Nat → Bool →
      Option (Score × Option (Nat × Nat) × TicTacToe))
    (depth : Nat) :
    ∀ (ms : List (Nat × Nat)) (bA : Score) best g v mv g',
      plainMaxLoop rec depth ms bA best g = some (v, mv, g') → bA ≤ v := by
  intro ms
  induction ms with
  | nil =>
    intro bA best g v mv g' h
    simp only [plainMaxLoop, Option.some.injEq, Prod.mk.injEq] at h
    exact le_of_eq h.1
  | cons p rest ih =>
    intro bA best g v mv g' h
    simp only [plainMaxLoop] at h
    cases hr : rec { g with board := setCell g.board p.1 p.2 Mark.O }
        (depth + 1) false with
    | none => simp only [hr] at h; exact Option.noConfusion h
    | some t =>
      obtain ⟨s, mv2, g2⟩ := t
      simp only [hr] at h
      have h2 := ih _ _ _ _ _ _ h
      rw [if_lt_max] at h2
      exact le_trans (le_max_left bA s) h2

/-- The plain minimizing loop only lowers its running minimum. -/
lemma plainMinLoop_le
    (rec : TicTacToe → Nat → Bool →
      Option (Score × Option (Nat × Nat) × TicTacToe))
    (depth : Nat) :
    ∀ (ms : List (Nat × Nat)) (bA : Score) best g v mv g',
      plainMinLoop rec depth ms bA best g = some (v, mv, g') → v ≤ bA := by
  intro ms
  induction ms with
  | nil =>
    intro bA best g v mv g' h
    simp only [plainMinLoop, Option.some.injEq, Prod.mk.injEq] at h
    exact le_of_eq h.1.symm
  | cons p rest ih =>
    intro bA best g v mv g' h
    simp only [plainMinLoop] at h
    cases hr : rec { g with board := setCell g.board p.1 p.2 Mark.X }
        (depth + 1) true with
    | none => simp only [hr] at h; exact Option.noConfusion h
    | some t =>
      obtain ⟨s, mv2, g2⟩ := t
      simp only [hr] at h
      have h2 := ih _ _ _ _ _ _ h
      rw [if_lt_min] at h2
      exact le_trans h2 (min_le_left bA s)

lemma maxLoop_val
    (rec : TicTacToe → Nat → Bool → Score → Score →
      Option (Score × Option (Nat × Nat) × TicTacToe))
    (depth : Nat) (β : Score)
    (Hrec : ∀ g d m α β' v mv g', rec g d m α β' = some (v, mv, g') →
      (⊥ : Score) < v ∧ v < (⊤ : Score)) :
    ∀ (ms : List (Nat × Nat)) (bA : Score) best (α : Score) g v mv g',
      maxLoop rec depth β ms bA best α g = some (v, mv, g') →
      bA < ⊤ → ((⊥ : Score) < bA ∨ ms ≠ []) →
      (⊥ : Score) < v ∧ v < (⊤ : Score) := by
  intro ms
  induction ms with
  | nil =>
    intro bA best α g v mv g' h hlt hne
    simp only [maxLoop, Option.some.injEq, Prod.mk.injEq] at h
    rw [← h.1]
    rcases hne with hb | hne
    · exact ⟨hb, hlt⟩
    · exact absurd rfl hne
  | cons p rest ih =>
    intro bA best α g v mv g' h hlt _
    simp only [maxLoop] at h
    cases hr : rec { g with board := setCell g.board p.1 p.2 Mark.O }
        (depth + 1) false α β with
    | none => simp only [hr] at h; exact Option.noConfusion h
    | some t =>
      obtain ⟨s, mv2, g2⟩ := t
      simp only [hr] at h
      have hs := Hrec _ _ _ _ _ _ _ _ hr
      have hnew : (⊥ : Score) < (if bA < s then s else bA) ∧
          (if bA < s then s else bA) < ⊤ := by
        by_cases hbs : bA < s
        · simp [hbs, hs.1, hs.2]
        · refine ⟨?_, ?_⟩ <;> simp only [hbs, if_false]
          · exact lt_of_lt_of_le hs.1 (not_lt.mp hbs)
          · exact hlt
      split at h
      · simp only [Option.some.injEq, Prod.mk.injEq] at h
        rw [← h.1]
        exact hnew
      · exact ih _ _ _ _ _ _ _ h hnew.2 (Or.inl hnew.1)

lemma minLoop_val
    (rec : TicTacToe → Nat → Bool → Score → Score →
      Option (Score × Option (Nat × Nat) × TicTacToe))
    (depth : Nat) (α : Score)
    (Hrec : ∀ g d m α' β v mv g', rec g d m α' β = some (v, mv, g') →
      (⊥ : Score) < v ∧ v < (⊤ : Score)) :
    ∀ (ms : List (Nat × Nat)) (bA : Score) best (β : Score) g v mv g',
      minLoop rec depth α ms bA best β g = some (v, mv, g') →
      ⊥ < bA → ((bA < (⊤ : Score)) ∨ ms ≠ []) →
      (⊥ : Score) < v ∧ v < (⊤ : Score) := by
  intro ms
  induction ms with
  | nil =>
    intro bA best β g v mv g' h hlt hne
    simp only [minLoop, Option.some.injEq, Prod.mk.injEq] at h
    rw [← h.1]
    rcases hne with hb | hne
    · exact ⟨hlt, hb⟩
    · exact absurd rfl hne
  | cons p rest ih =>
    intro bA best β g v mv g' h hlt _
    simp only [minLoop] at h
    cases hr : rec { g with board := setCell g.board p.1 p.2 Mark.X }
        (depth + 1) true α β with
    | none => simp only [hr] at h; exact Option.noConfusion h
    | some t =>
      obtain ⟨s, mv2, g2⟩ := t
      simp only [hr] at h
      have hs := Hrec _ _ _ _ _ _ _ _ hr
      have hnew : (⊥ : Score) < (if s < bA then s else bA) ∧
          (if s < bA then s else bA) < ⊤ := by
        by_cases hbs : s < bA
        · simp [hbs, hs.1, hs.2]
        · refine ⟨?_, ?_⟩ <;> simp only [hbs, if_false]
          · exact hlt
          · exact lt_of_le_of_lt (not_lt.mp hbs) hs.2
      split at h
      · simp only [Option.some.injEq, Prod.mk.injEq] at h
        rw [← h.1]
        exact hnew
      · exact ih _ _ _ _ _ _ _ h hnew.1 (Or.inl hnew.2)

/-- Every completed `minimax` call returns a finite score (strictly
between `-inf` and `inf`). -/
lemma minimax_val : ∀ (fuel : Nat) (g : TicTacToe) (d : Nat) (m : Bool)
    (α β : Score) v mv g',
    minimax fuel g d m α β = some (v, mv, g') →
    (⊥ : Score) < v ∧ v < (⊤ : Score) := by
  intro fuel
  induction fuel with
  | zero => intro g d m α β v mv g' h; exact absurd h (by simp [minimax])
  | succ n ih =>
    intro g d m α β v mv g' h
    simp only [minimax] at h
    split at h
    · simp only [Option.some.injEq, Prod.mk.injEq] at h
      rw [← h.1]; exact ⟨iv_bot_lt _, iv_lt_top _⟩
    · split at h
      · simp only [Option.some.injEq, Prod.mk.injEq] at h
        rw [← h.1]; exact ⟨iv_bot_lt _, iv_lt_top _⟩
      · split at h
        · simp only [Option.some.injEq, Prod.mk.injEq] at h
          rw [← h.1]; exact ⟨iv_bot_lt _, iv_lt_top _⟩
        · rename_i hEmp
          split at h
          · exact maxLoop_val (minimax n) d β
              (fun g1 d1 m1 a1 b1 v1 mv1 g1' hh => ih g1 d1 m1 a1 b1 v1 mv1 g1' hh)
              _ _ _ _ _ _ _ _ h bot_lt_top (Or.inr hEmp)
          · exact minLoop_val (minimax n) d α
              (fun g1 d1 m1 a1 b1 v1 mv1 g1' hh => ih g1 d1 m1 a1 b1 v1 mv1 g1' hh)
              _ _ _ _ _ _ _ _ h bot_lt_top (Or.inr hEmp)


/-!
## Alpha-beta pruning is value-preserving (fail-soft bounds)

`minimax_bounds` is the fail-soft alpha-beta property relating the
pruned search to plain exhaustive minimax on the same board: a value
strictly inside the `(α, β)` window is exact, a value at most `α` is
an upper bound on the plain value, and a value at least `β` is a lower
bound.
-/

lemma maxLoop_bounds
    (recA : TicTacToe → Nat → Bool → Score → Score →
      Option (Score × Option (Nat × Nat) × TicTacToe))
    (recP : TicTacToe → Nat → Bool →
      Option (Score × Option (Nat × Nat) × TicTacToe))
    (depth : Nat) (α β : Score)
    (HSA : ∀ g d m α' β' v mv g', recA g d m α' β' = some (v, mv, g') →
      SameCore g g')
    (HSP : ∀ g d m v mv g', recP g d m = some (v, mv, g') → SameCore g g')
    (HB : ∀ gA gP d α' β' v mv g1 w mw g2, gA.board = gP.board → α' < β' →
      recA gA d false α' β' = some (v, mv, g1) →
      recP gP d false = some (w, mw, g2) →
      (v ≤ α' → w ≤ v) ∧ (α' < v → v < β' → w = v) ∧ (β' ≤ v → v ≤ w)) :
    ∀ (ms : List (Nat × Nat)) bA bestA gA bP bestP gP v mv g1 w mw g2,
      gA.board = gP.board →
      (∀ p ∈ ms, getCell gA.board p.1 p.2 = Mark.E) →
      α < β → bP ≤ bA → (α < bA → bP = bA) → bA < β →
      maxLoop recA depth β ms bA bestA (max α bA) gA = some (v, mv, g1) →
      plainMaxLoop recP depth ms bP bestP gP = some (w, mw, g2) →
      (v ≤ α → w ≤ v) ∧ (α < v → v < β → w = v) ∧ (β ≤ v → v ≤ w) := by
  intro ms
  induction ms with
  | nil =>
    intro bA bestA gA bP bestP gP v mv g1 w mw g2 _ _ hab hba hh2 haβ hA hP
    simp only [maxLoop, Option.some.injEq, Prod.mk.injEq] at hA
    simp only [plainMaxLoop, Option.some.injEq, Prod.mk.injEq] at hP
    obtain ⟨hv, -⟩ := hA
    obtain ⟨hw, -⟩ := hP
    subst hv hw
    refine ⟨fun _ => hba, fun h1 _ => hh2 h1, fun hβv => ?_⟩
    exact absurd (lt_of_le_of_lt hβv haβ) (lt_irrefl β)
  | cons p rest ih =>
    intro bA bestA gA bP bestP gP v mv g1 w mw g2 hbrd hmem hab hba hh2 haβ hA hP
    simp only [maxLoop] at hA
    simp only [plainMaxLoop] at hP
    cases hra : recA { gA with board := setCell gA.board p.1 p.2 Mark.O }
        (depth + 1) false (max α bA) β with
    | none => simp only [hra] at hA; exact Option.noConfusion hA
    | some tA =>
    obtain ⟨s, mvA, gA2⟩ := tA
    simp only [hra] at hA
    cases hrp : recP { gP with board := setCell gP.board p.1 p.2 Mark.O }
        (depth + 1) false with
    | none => simp only [hrp] at hP; exact Option.noConfusion hP
    | some tP =>
    obtain ⟨sP, mvP, gP2⟩ := tP
    simp only [hrp] at hP
    have hmaxlt : max α bA < β := max_lt hab haβ
    have hcb := HB _ _ _ _ _ _ _ _ _ _ _
      (show setCell gA.board p.1 p.2 Mark.O = setCell gP.board p.1 p.2 Mark.O by
        rw [hbrd])
      hmaxlt hra hrp
    have hSA2 := HSA _ _ _ _ _ _ _ _ hra
    have hSP2 := HSP _ _ _ _ _ _ hrp
    have hA3 : setCell gA2.board p.1 p.2 Mark.E = gA.board := by
      rw [show gA2.board = setCell gA.board p.1 p.2 Mark.O from hSA2.1]
      exact setCell_clear Mark.O (hmem p (List.mem_cons_self p rest))
    have hP3 : setCell gP2.board p.1 p.2 Mark.E = gP.board := by
      rw [show gP2.board = setCell gP.board p.1 p.2 Mark.O from hSP2.1]
      refine setCell_clear Mark.O ?_
      rw [← hbrd]
      exact hmem p (List.mem_cons_self p rest)
    split at hA
    · rename_i hbrk
      simp only [Option.some.injEq, Prod.mk.injEq] at hA
      obtain ⟨hv, -⟩ := hA
      have hβs : β ≤ s := by
        rcases le_max_iff.mp hbrk with h' | h'
        · exact absurd h' (not_le.mpr hmaxlt)
        · exact h'
      have hbAs : bA < s := lt_of_lt_of_le haβ hβs
      have hvs : v = s := by rw [← hv]; simp [hbAs]
      have hβv : β ≤ v := by rw [hvs]; exact hβs
      refine ⟨fun hvα => ?_, fun _ h2 => ?_, fun _ => ?_⟩
      · exact absurd (le_trans hβv hvα) (not_le.mpr hab)
      · exact absurd h2 (not_lt.mpr hβv)
      · have hge := plainMaxLoop_ge recP depth rest _ _ _ _ _ _ hP
        have hsPb : sP ≤ (if bP < sP then sP else bP) := by
          rw [if_lt_max]; exact le_max_right bP sP
        calc v = s := hvs
          _ ≤ sP := hcb.2.2 hβs
          _ ≤ (if bP < sP then sP else bP) := hsPb
          _ ≤ w := hge
    · rename_i hbrk
      have hsβ : s < β := lt_of_le_of_lt (le_max_right _ _) (not_le.mp hbrk)
      have hinv1 : max bP sP ≤ max bA s := by
        by_cases hcs : s ≤ max α bA
        · exact max_le_max hba (le_trans (hcb.1 hcs) le_rfl)
        · rw [hcb.2.1 (not_le.mp hcs) hsβ]
          exact max_le_max hba le_rfl
      have hinv2 : α < max bA s → max bP sP = max bA s := by
        intro hα'
        by_cases hbs : s ≤ bA
        · rw [max_eq_left hbs] at hα' ⊢
          have hmm : max α bA = bA := max_eq_right (le_of_lt hα')
          have hsPle : sP ≤ s := hcb.1 (by rw [hmm]; exact hbs)
          rw [hh2 hα']
          exact max_eq_left (le_trans hsPle hbs)
        · have hbs' : bA < s := not_le.mp hbs
          rw [max_eq_right hbs'.le] at hα' ⊢
          rw [hcb.2.1 (max_lt hα' hbs') hsβ]
          exact max_eq_right (le_trans hba hbs'.le)
      have hinv3 : max bA s < β := max_lt haβ hsβ
      rw [if_lt_max] at hA
      rw [max_assoc α bA s] at hA
      rw [if_lt_max] at hP
      refine ih _ _ _ _ _ _ _ _ _ _ _ _ ?_ ?_ hab hinv1 hinv2 hinv3 hA hP
      · show setCell gA2.board p.1 p.2 Mark.E = setCell gP2.board p.1 p.2 Mark.E
        rw [hA3, hP3, hbrd]
      · intro q hq
        show getCell (setCell gA2.board p.1 p.2 Mark.E) q.1 q.2 = Mark.E
        rw [hA3]
        exact hmem q (List.mem_cons_of_mem p hq)

lemma minLoop_bounds
    (recA : TicTacToe → Nat → Bool → Score → Score →
      Option (Score × Option (Nat × Nat) × TicTacToe))
    (recP : TicTacToe → Nat → Bool →
      Option (Score × Option (Nat × Nat) × TicTacToe))
    (depth : Nat) (α β : Score)
    (HSA : ∀ g d m α' β' v mv g', recA g d m α' β' = some (v, mv, g') →
      SameCore g g')
    (HSP : ∀ g d m v mv g', recP g d m = some (v, mv, g') → SameCore g g')
    (HB : ∀ gA gP d α' β' v mv g1 w mw g2, gA.board = gP.board → α' < β' →
      recA gA d true α' β' = some (v, mv, g1) →
      recP gP d true = some (w, mw, g2) →
      (v ≤ α' → w ≤ v) ∧ (α' < v → v < β' → w = v) ∧ (β' ≤ v → v ≤ w)) :
    ∀ (ms : List (Nat × Nat)) bA bestA gA bP bestP gP v mv g1 w mw g2,
      gA.board = gP.board →
      (∀ p ∈ ms, getCell gA.board p.1 p.2 = Mark.E) →
      α < β → bA ≤ bP → (bA < β → bP = bA) → α < bA →
      minLoop recA depth α ms bA bestA (min β bA) gA = some (v, mv, g1) →
      plainMinLoop recP depth ms bP bestP gP = some (w, mw, g2) →
      (v ≤ α → w ≤ v) ∧ (α < v → v < β → w = v) ∧ (β ≤ v → v ≤ w) := by
  intro ms
  induction ms with
  | nil =>
    intro bA bestA gA bP bestP gP v mv g1 w mw g2 _ _ hab hba hh2 hαb hA hP
    simp only [minLoop, Option.some.injEq, Prod.mk.injEq] at hA
    simp only [plainMinLoop, Option.some.injEq, Prod.mk.injEq] at hP
    obtain ⟨hv, -⟩ := hA
    obtain ⟨hw, -⟩ := hP
    subst hv hw
    refine ⟨fun hvα => ?_, fun _ h2 => hh2 h2, fun _ => hba⟩
    exact absurd (lt_of_lt_of_le hαb hvα) (lt_irrefl α)
  | cons p rest ih =>
    intro bA bestA gA bP bestP gP v mv g1 w mw g2 hbrd hmem hab hba hh2 hαb hA hP
    simp only [minLoop] at hA
    simp only [plainMinLoop] at hP
    cases hra : recA { gA with board := setCell gA.board p.1 p.2 Mark.X }
        (depth + 1) true α (min β bA) with
    | none => simp only [hra] at hA; exact Option.noConfusion hA
    | some tA =>
    obtain ⟨s, mvA, gA2⟩ := tA
    simp only [hra] at hA
    cases hrp : recP { gP with board := setCell gP.board p.1 p.2 Mark.X }
        (depth + 1) true with
    | none => simp only [hrp] at hP; exact Option.noConfusion hP
    | some tP =>
    obtain ⟨sP, mvP, gP2⟩ := tP
    simp only [hrp] at hP
    have hminlt : α < min β bA := lt_min hab hαb
    have hcb := HB _ _ _ _ _ _ _ _ _ _ _
      (show setCell gA.board p.1 p.2 Mark.X = setCell gP.board p.1 p.2 Mark.X by
        rw [hbrd])
      hminlt hra hrp
    have hSA2 := HSA _ _ _ _ _ _ _ _ hra
    have hSP2 := HSP _ _ _ _ _ _ hrp
    have hA3 : setCell gA2.board p.1 p.2 Mark.E = gA.board := by
      rw [show gA2.board = setCell gA.board p.1 p.2 Mark.X from hSA2.1]
      exact setCell_clear Mark.X (hmem p (List.mem_cons_self p rest))
    have hP3 : setCell gP2.board p.1 p.2 Mark.E = gP.board := by
      rw [show gP2.board = setCell gP.board p.1 p.2 Mark.X from hSP2.1]
      refine setCell_clear Mark.X ?_
      rw [← hbrd]
      exact hmem p (List.mem_cons_self p rest)
    split at hA
    · rename_i hbrk
      simp only [Option.some.injEq, Prod.mk.injEq] at hA
      obtain ⟨hv, -⟩ := hA
      have hsα : s ≤ α := by
        rcases min_le_iff.mp hbrk with h' | h'
        · exact absurd h' (not_le.mpr hminlt)
        · exact h'
      have hsbA : s < bA := lt_of_le_of_lt hsα hαb
      have hvs : v = s := by rw [← hv]; simp [hsbA]
      have hvα : v ≤ α := by rw [hvs]; exact hsα
      refine ⟨fun _ => ?_, fun h1 _ => ?_, fun hβv => ?_⟩
      · have hle := plainMinLoop_le recP depth rest _ _ _ _ _ _ hP
        have hsPb : (if sP < bP then sP else bP) ≤ sP := by
          rw [if_lt_min]; exact min_le_right bP sP
        calc w ≤ (if sP < bP then sP else bP) := hle
          _ ≤ sP := hsPb
          _ ≤ s := hcb.1 hsα
          _ = v := hvs.symm
      · exact absurd h1 (not_lt.mpr hvα)
      · exact absurd (le_trans hβv hvα) (not_le.mpr hab)
    · rename_i hbrk
      have hαs : α < s := lt_of_lt_of_le (not_le.mp hbrk) (min_le_right _ _)
      have hinv1 : min bA s ≤ min bP sP := by
        by_cases hcs : min β bA ≤ s
        · exact min_le_min hba (hcb.2.2 hcs)
        · rw [hcb.2.1 hαs (not_le.mp hcs)]
          exact min_le_min hba le_rfl
      have hinv2 : min bA s < β → min bP sP = min bA s := by
        intro hβ'
        by_cases hbs : bA ≤ s
        · rw [min_eq_left hbs] at hβ' ⊢
          have hmm : min β bA = bA := min_eq_right (le_of_lt hβ')
          have hsPge : s ≤ sP := hcb.2.2 (by rw [hmm]; exact hbs)
          rw [hh2 hβ']
          exact min_eq_left (le_trans hbs hsPge)
        · have hbs' : s < bA := not_le.mp hbs
          rw [min_eq_right hbs'.le] at hβ' ⊢
          rw [hcb.2.1 hαs (lt_min hβ' hbs')]
          exact min_eq_right (le_trans hbs'.le hba)
      have hinv3 : α < min bA s := lt_min hαb hαs
      rw [if_lt_min] at hA
      rw [min_assoc β bA s] at hA
      rw [if_lt_min] at hP
      refine ih _ _ _ _ _ _ _ _ _ _ _ _ ?_ ?_ hab hinv1 hinv2 hinv3 hA hP
      · show setCell gA2.board p.1 p.2 Mark.E = setCell gP2.board p.1 p.2 Mark.E
        rw [hA3, hP3, hbrd]
      · intro q hq
        show getCell (setCell gA2.board p.1 p.2 Mark.E) q.1 q.2 = Mark.E
        rw [hA3]
        exact hmem q (List.mem_cons_of_mem p hq)

/-- Fail-soft alpha-beta bounds against plain minimax, on two states
with equal boards. -/
lemma minimax_bounds : ∀ (fuel : Nat) (gA gP : TicTacToe) (d : Nat)
    (m : Bool) (α β : Score) v mv g1 w mw g2,
    gA.board = gP.board → α < β →
    minimax fuel gA d m α β = some (v, mv, g1) →
    minimaxPlain fuel gP d m = some (w, mw, g2) →
    (v ≤ α → w ≤ v) ∧ (α < v → v < β → w = v) ∧ (β ≤ v → v ≤ w) := by
  intro fuel
  induction fuel with
  | zero =>
    intro gA gP d m α β v mv g1 w mw g2 _ _ hA _
    exact absurd hA (by simp [minimax])
  | succ n ih =>
    intro gA gP d m α β v mv g1 w mw g2 hbrd hab hA hP
    simp only [minimax] at hA
    simp only [minimaxPlain] at hP
    rw [hbrd] at hA
    by_cases hO : check_winner gP.board Mark.O = true
    · rw [if_pos hO] at hA hP
      simp only [Option.some.injEq, Prod.mk.injEq] at hA hP
      have hvw : w = v := by rw [← hA.1, ← hP.1]
      exact ⟨fun _ => le_of_eq hvw, fun _ _ => hvw, fun _ => le_of_eq hvw.symm⟩
    · rw [if_neg hO] at hA hP
      by_cases hX : check_winner gP.board Mark.X = true
      · rw [if_pos hX] at hA hP
        simp only [Option.some.injEq, Prod.mk.injEq] at hA hP
        have hvw : w = v := by rw [← hA.1, ← hP.1]
        exact ⟨fun _ => le_of_eq hvw, fun _ _ => hvw, fun _ => le_of_eq hvw.symm⟩
      · rw [if_neg hX] at hA hP
        by_cases hE : get_empty_cells gP.board = []
        · rw [if_pos hE] at hA hP
          simp only [Option.some.injEq, Prod.mk.injEq] at hA hP
          have hvw : w = v := by rw [← hA.1, ← hP.1]
          exact ⟨fun _ => le_of_eq hvw, fun _ _ => hvw, fun _ => le_of_eq hvw.symm⟩
        · rw [if_neg hE] at hA hP
          cases m with
          | true =>
            rw [if_pos rfl] at hA hP
            rw [show α = max α ⊥ from (max_eq_left bot_le).symm] at hA
            exact maxLoop_bounds (minimax n) (minimaxPlain n) d α β
              (fun g0 d0 m0 a0 b0 v0 mv0 g0' hh => minimax_state n g0 d0 m0 a0 b0 v0 mv0 g0' hh)
              (fun g0 d0 m0 v0 mv0 g0' hh => minimaxPlain_state n g0 d0 m0 v0 mv0 g0' hh)
              (fun gA0 gP0 d0 a0 b0 v0 mv0 g10 w0 mw0 g20 hb0 hab0 hA0 hP0 =>
                ih gA0 gP0 d0 false a0 b0 v0 mv0 g10 w0 mw0 g20 hb0 hab0 hA0 hP0)
              _ _ _ _ _ _ _ _ _ _ _ _ _ (by rfl)
              (by intro q hq; exact mem_empty_cells hq)
              hab le_rfl (fun h => absurd h (not_lt_bot)) (lt_of_le_of_lt bot_le hab)
              hA hP
          | false =>
            rw [if_neg (by simp)] at hA hP
            rw [show β = min β ⊤ from (min_eq_left le_top).symm] at hA
            exact minLoop_bounds (minimax n) (minimaxPlain n) d α β
              (fun g0 d0 m0 a0 b0 v0 mv0 g0' hh => minimax_state n g0 d0 m0 a0 b0 v0 mv0 g0' hh)
              (fun g0 d0 m0 v0 mv0 g0' hh => minimaxPlain_state n g0 d0 m0 v0 mv0 g0' hh)
              (fun gA0 gP0 d0 a0 b0 v0 mv0 g10 w0 mw0 g20 hb0 hab0 hA0 hP0 =>
                ih gA0 gP0 d0 true a0 b0 v0 mv0 g10 w0 mw0 g20 hb0 hab0 hA0 hP0)
              _ _ _ _ _ _ _ _ _ _ _ _ _ (by rfl)
              (by intro q hq; exact mem_empty_cells hq)
              hab le_rfl (fun h => absurd h (not_top_lt)) (lt_of_lt_of_le hab le_top)
              hA hP


/-!
## The root search window: pruning also preserves the chosen move

At the defaulted root window `alpha = -inf`, `beta = inf` (the only
window the program ever passes explicitly — `minimax(0, True)` from
`get_ai_move`), the cutoff `beta <= alpha` can never fire and every
running-maximum update coincides with plain enumeration, so the best
move is preserved as well as the score.
-/

lemma maxLoop_root_eq
    (recA : TicTacToe → Nat → Bool → Score → Score →
      Option (Score × Option (Nat × Nat) × TicTacToe))
    (recP : TicTacToe → Nat → Bool →
      Option (Score × Option (Nat × Nat) × TicTacToe))
    (depth : Nat)
    (HSA : ∀ g d m α' β' v mv g', recA g d m α' β' = some (v, mv, g') →
      SameCore g g')
    (HSP : ∀ g d m v mv g', recP g d m = some (v, mv, g') → SameCore g g')
    (HV : ∀ g d m α' β' v mv g', recA g d m α' β' = some (v, mv, g') →
      (⊥ : Score) < v ∧ v < (⊤ : Score))
    (HB : ∀ gA gP d α' β' v mv g1 w mw g2, gA.board = gP.board → α' < β' →
      recA gA d false α' β' = some (v, mv, g1) →
      recP gP d false = some (w, mw, g2) →
      (v ≤ α' → w ≤ v) ∧ (α' < v → v < β' → w = v) ∧ (β' ≤ v → v ≤ w)) :
    ∀ (ms : List (Nat × Nat)) b best gA gP v mv g1 w mw g2,
      maxLoop recA depth ⊤ ms b best (max ⊥ b) gA = some (v, mv, g1) →
      plainMaxLoop recP depth ms b best gP = some (w, mw, g2) →
      gA.board = gP.board →
      (∀ p ∈ ms, getCell gA.board p.1 p.2 = Mark.E) →
      b < (⊤ : Score) →
      v = w ∧ mv = mw := by
  intro ms
  induction ms with
  | nil =>
    intro b best gA gP v mv g1 w mw g2 hA hP _ _ _
    simp only [maxLoop, Option.some.injEq, Prod.mk.injEq] at hA
    simp only [plainMaxLoop, Option.some.injEq, Prod.mk.injEq] at hP
    exact ⟨by rw [← hA.1, ← hP.1], by rw [← hA.2.1, ← hP.2.1]⟩
  | cons p rest ih =>
    intro b best gA gP v mv g1 w mw g2 hA hP hbrd hmem hbT
    simp only [maxLoop] at hA
    simp only [plainMaxLoop] at hP
    cases hra : recA { gA with board := setCell gA.board p.1 p.2 Mark.O }
        (depth + 1) false (max ⊥ b) ⊤ with
    | none => simp only [hra] at hA; exact Option.noConfusion hA
    | some tA =>
    obtain ⟨s, mvA, gA2⟩ := tA
    simp only [hra] at hA
    cases hrp : recP { gP with board := setCell gP.board p.1 p.2 Mark.O }
        (depth + 1) false with
    | none => simp only [hrp] at hP; exact Option.noConfusion hP
    | some tP =>
    obtain ⟨sP, mvP, gP2⟩ := tP
    simp only [hrp] at hP
    have hmb : max (⊥ : Score) b = b := max_eq_right bot_le
    have hv := HV _ _ _ _ _ _ _ _ hra
    have hcb := HB _ _ _ _ _ _ _ _ _ _ _
      (show setCell gA.board p.1 p.2 Mark.O = setCell gP.board p.1 p.2 Mark.O by
        rw [hbrd])
      (by rw [hmb]; exact hbT) hra hrp
    have hSA2 := HSA _ _ _ _ _ _ _ _ hra
    have hSP2 := HSP _ _ _ _ _ _ hrp
    have hA3 : setCell gA2.board p.1 p.2 Mark.E = gA.board := by
      rw [show gA2.board = setCell gA.board p.1 p.2 Mark.O from hSA2.1]
      exact setCell_clear Mark.O (hmem p (List.mem_cons_self p rest))
    have hP3 : setCell gP2.board p.1 p.2 Mark.E = gP.board := by
      rw [show gP2.board = setCell gP.board p.1 p.2 Mark.O from hSP2.1]
      refine setCell_clear Mark.O ?_
      rw [← hbrd]
      exact hmem p (List.mem_cons_self p rest)
    split at hA
    · rename_i hbrk
      exact absurd hbrk (not_le.mpr (max_lt (by rw [hmb]; exact hbT) hv.2))
    · by_cases hbs : b < s
      · have hsP : sP = s := hcb.2.1 (by rw [hmb]; exact hbs) hv.2
        rw [hsP] at hP
        rw [if_lt_max] at hA
        rw [max_assoc] at hA
        rw [if_lt_max] at hP
        refine ih _ _ _ _ _ _ _ _ _ _ hA hP ?_ ?_ (max_lt hbT hv.2)
        · show setCell gA2.board p.1 p.2 Mark.E
            = setCell gP2.board p.1 p.2 Mark.E
          rw [hA3, hP3]
          exact hbrd
        · intro q hq
          show getCell (setCell gA2.board p.1 p.2 Mark.E) q.1 q.2 = Mark.E
          rw [hA3]
          exact hmem q (List.mem_cons_of_mem p hq)
      · have hsb : s ≤ b := not_lt.mp hbs
        have hsPle : sP ≤ s := hcb.1 (by rw [hmb]; exact hsb)
        have hbsP : ¬ b < sP := not_lt.mpr (le_trans hsPle hsb)
        simp only [if_neg hbs] at hA
        simp only [if_neg hbsP] at hP
        rw [show max (max (⊥ : Score) b) s = max ⊥ b from
          max_eq_left (by rw [hmb]; exact hsb)] at hA
        refine ih _ _ _ _ _ _ _ _ _ _ hA hP ?_ ?_ hbT
        · show setCell gA2.board p.1 p.2 Mark.E
            = setCell gP2.board p.1 p.2 Mark.E
          rw [hA3, hP3]
          exact hbrd
        · intro q hq
          show getCell (setCell gA2.board p.1 p.2 Mark.E) q.1 q.2 = Mark.E
          rw [hA3]
          exact hmem q (List.mem_cons_of_mem p hq)

lemma minLoop_root_eq
    (recA : TicTacToe → Nat → Bool → Score → Score →
      Option (Score × Option (Nat × Nat) × TicTacToe))
    (recP : TicTacToe → Nat → Bool →
      Option (Score × Option (Nat × Nat) × TicTacToe))
    (depth : Nat)
    (HSA : ∀ g d m α' β' v mv g', recA g d m α' β' = some (v, mv, g') →
      SameCore g g')
    (HSP : ∀ g d m v mv g', recP g d m = some (v, mv, g') → SameCore g g')
    (HV : ∀ g d m α' β' v mv g', recA g d m α' β' = some (v, mv, g') →
      (⊥ : Score) < v ∧ v < (⊤ : Score))
    (HB : ∀ gA gP d α' β' v mv g1 w mw g2, gA.board = gP.board → α' < β' →
      recA gA d true α' β' = some (v, mv, g1) →
      recP gP d true = some (w, mw, g2) →
      (v ≤ α' → w ≤ v) ∧ (α' < v → v < β' → w = v) ∧ (β' ≤ v → v ≤ w)) :
    ∀ (ms : List (Nat × Nat)) b best gA gP v mv g1 w mw g2,
      minLoop recA depth ⊥ ms b best (min ⊤ b) gA = some (v, mv, g1) →
      plainMinLoop recP depth ms b best gP = some (w, mw, g2) →
      gA.board = gP.board →
      (∀ p ∈ ms, getCell gA.board p.1 p.2 = Mark.E) →
      (⊥ : Score) < b →
      v = w ∧ mv = mw := by
  intro ms
  induction ms with
  | nil =>
    intro b best gA gP v mv g1 w mw g2 hA hP _ _ _
    simp only [minLoop, Option.some.injEq, Prod.mk.injEq] at hA
    simp only [plainMinLoop, Option.some.injEq, Prod.mk.injEq] at hP
    exact ⟨by rw [← hA.1, ← hP.1], by rw [← hA.2.1, ← hP.2.1]⟩
  | cons p rest ih =>
    intro b best gA gP v mv g1 w mw g2 hA hP hbrd hmem hbT
    simp only [minLoop] at hA
    simp only [plainMinLoop] at hP
    cases hra : recA { gA with board := setCell gA.board p.1 p.2 Mark.X }
        (depth + 1) true ⊥ (min ⊤ b) with
    | none => simp only [hra] at hA; exact Option.noConfusion hA
    | some tA =>
    obtain ⟨s, mvA, gA2⟩ := tA
    simp only [hra] at hA
    cases hrp : recP { gP with board := setCell gP.board p.1 p.2 Mark.X }
        (depth + 1) true with
    | none => simp only [hrp] at hP; exact Option.noConfusion hP
    | some tP =>
    obtain ⟨sP, mvP, gP2⟩ := tP
    simp only [hrp] at hP
    have hmb : min (⊤ : Score) b = b := min_eq_right le_top
    have hv := HV _ _ _ _ _ _ _ _ hra
    have hcb := HB _ _ _ _ _ _ _ _ _ _ _
      (show setCell gA.board p.1 p.2 Mark.X = setCell gP.board p.1 p.2 Mark.X by
        rw [hbrd])
      (by rw [hmb]; exact hbT) hra hrp
    have hSA2 := HSA _ _ _ _ _ _ _ _ hra
    have hSP2 := HSP _ _ _ _ _ _ hrp
    have hA3 : setCell gA2.board p.1 p.2 Mark.E = gA.board := by
      rw [show gA2.board = setCell gA.board p.1 p.2 Mark.X from hSA2.1]
      exact setCell_clear Mark.X (hmem p (List.mem_cons_self p rest))
    have hP3 : setCell gP2.board p.1 p.2 Mark.E = gP.board := by
      rw [show gP2.board = setCell gP.board p.1 p.2 Mark.X from hSP2.1]
      refine setCell_clear Mark.X ?_
      rw [← hbrd]
      exact hmem p (List.mem_cons_self p rest)
    split at hA
    · rename_i hbrk
      exact absurd hbrk (not_le.mpr (lt_min (by rw [hmb]; exact hbT) hv.1))
    · by_cases hbs : s < b
      · have hsP : sP = s := hcb.2.1 hv.1 (by rw [hmb]; exact hbs)
        rw [hsP] at hP
        rw [if_lt_min] at hA
        rw [min_assoc] at hA
        rw [if_lt_min] at hP
        refine ih _ _ _ _ _ _ _ _ _ _ hA hP ?_ ?_ (lt_min hbT hv.1)
        · show setCell gA2.board p.1 p.2 Mark.E
            = setCell gP2.board p.1 p.2 Mark.E
          rw [hA3, hP3]
          exact hbrd
        · intro q hq
          show getCell (setCell gA2.board p.1 p.2 Mark.E) q.1 q.2 = Mark.E
          rw [hA3]
          exact hmem q (List.mem_cons_of_mem p hq)
      · have hsb : b ≤ s := not_lt.mp hbs
        have hsPge : s ≤ sP := hcb.2.2 (by rw [hmb]; exact hsb)
        have hbsP : ¬ sP < b := not_lt.mpr (le_trans hsb hsPge)
        simp only [if_neg hbs] at hA
        simp only [if_neg hbsP] at hP
        rw [show min (min (⊤ : Score) b) s = min ⊤ b from
          min_eq_left (by rw [hmb]; exact hsb)] at hA
        refine ih _ _ _ _ _ _ _ _ _ _ hA hP ?_ ?_ hbT
        · show setCell gA2.board p.1 p.2 Mark.E
            = setCell gP2.board p.1 p.2 Mark.E
          rw [hA3, hP3]
          exact hbrd
        · intro q hq
          show getCell (setCell gA2.board p.1 p.2 Mark.E) q.1 q.2 = Mark.E
          rw [hA3]
          exact hmem q (List.mem_cons_of_mem p hq)

/-- At the defaulted root window `(-inf, inf)`, the pruned search and
plain exhaustive minimax agree on both the score and the chosen move. -/
lemma minimax_root_eq : ∀ (fuel : Nat) (gA gP : TicTacToe) (d : Nat)
    (m : Bool) v mv g1 w mw g2,
    gA.board = gP.board →
    minimax fuel gA d m ⊥ ⊤ = some (v, mv, g1) →
    minimaxPlain fuel gP d m = some (w, mw, g2) →
    v = w ∧ mv = mw := by
  intro fuel gA gP d m v mv g1 w mw g2 hbrd hA hP
  cases fuel with
  | zero => exact absurd hA (by simp [minimax])
  | succ n =>
    simp only [minimax] at hA
    simp only [minimaxPlain] at hP
    rw [hbrd] at hA
    by_cases hO : check_winner gP.board Mark.O = true
    · rw [if_pos hO] at hA hP
      simp only [Option.some.injEq, Prod.mk.injEq] at hA hP
      exact ⟨by rw [← hA.1, ← hP.1], by rw [← hA.2.1, ← hP.2.1]⟩
    · rw [if_neg hO] at hA hP
      by_cases hX : check_winner gP.board Mark.X = true
      · rw [if_pos hX] at hA hP
        simp only [Option.some.injEq, Prod.mk.injEq] at hA hP
        exact ⟨by rw [← hA.1, ← hP.1], by rw [← hA.2.1, ← hP.2.1]⟩
      · rw [if_neg hX] at hA hP
        by_cases hE : get_empty_cells gP.board = []
        · rw [if_pos hE] at hA hP
          simp only [Option.some.injEq, Prod.mk.injEq] at hA hP
          exact ⟨by rw [← hA.1, ← hP.1], by rw [← hA.2.1, ← hP.2.1]⟩
        · rw [if_neg hE] at hA hP
          cases m with
          | true =>
            rw [if_pos rfl] at hA hP
            nth_rewrite 2 [show (⊥ : Score) = max ⊥ ⊥ from (max_self ⊥).symm] at hA
            exact maxLoop_root_eq (minimax n) (minimaxPlain n) d
              (fun g0 d0 m0 a0 b0 v0 mv0 g0' hh =>
                minimax_state n g0 d0 m0 a0 b0 v0 mv0 g0' hh)
              (fun g0 d0 m0 v0 mv0 g0' hh =>
                minimaxPlain_state n g0 d0 m0 v0 mv0 g0' hh)
              (fun g0 d0 m0 a0 b0 v0 mv0 g0' hh =>
                minimax_val n g0 d0 m0 a0 b0 v0 mv0 g0' hh)
              (fun gA0 gP0 d0 a0 b0 v0 mv0 g10 w0 mw0 g20 hb0 hab0 hA0 hP0 =>
                minimax_bounds n gA0 gP0 d0 false a0 b0 v0 mv0 g10 w0 mw0 g20
                  hb0 hab0 hA0 hP0)
              _ _ _ _ _ _ _ _ _ _ _ hA hP rfl
              (fun q hq => mem_empty_cells hq)
              (lt_trans (iv_bot_lt 0) (iv_lt_top 0))
          | false =>
            rw [if_neg (by simp)] at hA hP
            nth_rewrite 2 [show (⊤ : Score) = min ⊤ ⊤ from (min_self ⊤).symm] at hA
            exact minLoop_root_eq (minimax n) (minimaxPlain n) d
              (fun g0 d0 m0 a0 b0 v0 mv0 g0' hh =>
                minimax_state n g0 d0 m0 a0 b0 v0 mv0 g0' hh)
              (fun g0 d0 m0 v0 mv0 g0' hh =>
                minimaxPlain_state n g0 d0 m0 v0 mv0 g0' hh)
              (fun g0 d0 m0 a0 b0 v0 mv0 g0' hh =>
                minimax_val n g0 d0 m0 a0 b0 v0 mv0 g0' hh)
              (fun gA0 gP0 d0 a0 b0 v0 mv0 g10 w0 mw0 g20 hb0 hab0 hA0 hP0 =>
                minimax_bounds n gA0 gP0 d0 true a0 b0 v0 mv0 g10 w0 mw0 g20
                  hb0 hab0 hA0 hP0)
              _ _ _ _ _ _ _ _ _ _ _ hA hP rfl
              (fun q hq => mem_empty_cells hq)
              (lt_trans (iv_bot_lt 0) (iv_lt_top 0))


/-!
## Instrumentation counters

`nodes_explored` strictly grows and `depth_reached` never falls across
a `minimax` call: the counters accumulate on top of whatever values the
state already held.
-/

lemma maxLoop_counters
    (rec : TicTacToe → Nat → Bool → Score → Score →
      Option (Score × Option (Nat × Nat) × TicTacToe))
    (depth : Nat) (β : Score)
    (Hrec : ∀ g d m α' β' v mv g', rec g d m α' β' = some (v, mv, g') →
      g.nodes_explored ≤ g'.nodes_explored ∧
      g.depth_reached ≤ g'.depth_reached) :
    ∀ (ms : List (Nat × Nat)) bA best (α : Score) g v mv g',
      maxLoop rec depth β ms bA best α g = some (v, mv, g') →
      g.nodes_explored ≤ g'.nodes_explored ∧
      g.depth_reached ≤ g'.depth_reached := by
  intro ms
  induction ms with
  | nil =>
    intro bA best α g v mv g' h
    simp only [maxLoop, Option.some.injEq, Prod.mk.injEq] at h
    rw [← h.2.2]
    exact ⟨le_rfl, le_rfl⟩
  | cons p rest ih =>
    intro bA best α g v mv g' h
    simp only [maxLoop] at h
    cases hra : rec { g with board := setCell g.board p.1 p.2 Mark.O }
        (depth + 1) false α β with
    | none => simp only [hra] at h; exact Option.noConfusion h
    | some t =>
    obtain ⟨s, mvA, g2⟩ := t
    simp only [hra] at h
    have hc := Hrec _ _ _ _ _ _ _ _ hra
    split at h
    · simp only [Option.some.injEq, Prod.mk.injEq] at h
      rw [← h.2.2]
      exact ⟨hc.1, hc.2⟩
    · have h2 := ih _ _ _ _ _ _ _ h
      exact ⟨le_trans hc.1 h2.1, le_trans hc.2 h2.2⟩

lemma minLoop_counters
    (rec : TicTacToe → Nat → Bool → Score → Score →
      Option (Score × Option (Nat × Nat) × TicTacToe))
    (depth : Nat) (α : Score)
    (Hrec : ∀ g d m α' β' v mv g', rec g d m α' β' = some (v, mv, g') →
      g.nodes_explored ≤ g'.nodes_explored ∧
      g.depth_reached ≤ g'.depth_reached) :
    ∀ (ms : List (Nat × Nat)) bA best (β : Score) g v mv g',
      minLoop rec depth α ms bA best β g = some (v, mv, g') →
      g.nodes_explored ≤ g'.nodes_explored ∧
      g.depth_reached ≤ g'.depth_reached := by
  intro ms
  induction ms with
  | nil =>
    intro bA best β g v mv g' h
    simp only [minLoop, Option.some.injEq, Prod.mk.injEq] at h
    rw [← h.2.2]
    exact ⟨le_rfl, le_rfl⟩
  | cons p rest ih =>
    intro bA best β g v mv g' h
    simp only [minLoop] at h
    cases hra : rec { g with board := setCell g.board p.1 p.2 Mark.X }
        (depth + 1) true α β with
    | none => simp only [hra] at h; exact Option.noConfusion h
    | some t =>
    obtain ⟨s, mvA, g2⟩ := t
    simp only [hra] at h
    have hc := Hrec _ _ _ _ _ _ _ _ hra
    split at h
    · simp only [Option.some.injEq, Prod.mk.injEq] at h
      rw [← h.2.2]
      exact ⟨hc.1, hc.2⟩
    · have h2 := ih _ _ _ _ _ _ _ h
      exact ⟨le_trans hc.1 h2.1, le_trans hc.2 h2.2⟩

lemma minimax_counters : ∀ (fuel : Nat) (g : TicTacToe) (d : Nat) (m : Bool)
    (α β : Score) v mv g',
    minimax fuel g d m α β = some (v, mv, g') →
    g.nodes_explored < g'.nodes_explored ∧
    g.depth_reached ≤ g'.depth_reached := by
  intro fuel
  induction fuel with
  | zero => intro g d m α β v mv g' h; exact absurd h (by simp [minimax])
  | succ n ih =>
    intro g d m α β v mv g' h
    simp only [minimax] at h
    split at h
    · simp only [Option.some.injEq, Prod.mk.injEq] at h
      rw [← h.2.2]
      exact ⟨Nat.lt_succ_self _, le_max_left _ _⟩
    · split at h
      · simp only [Option.some.injEq, Prod.mk.injEq] at h
        rw [← h.2.2]
        exact ⟨Nat.lt_succ_self _, le_max_left _ _⟩
      · split at h
        · simp only [Option.some.injEq, Prod.mk.injEq] at h
          rw [← h.2.2]
          exact ⟨Nat.lt_succ_self _, le_max_left _ _⟩
        · split at h
          · have hml := maxLoop_counters (minimax n) d β
              (fun g0 d0 m0 a0 b0 v0 mv0 g0' hh =>
                ⟨(ih g0 d0 m0 a0 b0 v0 mv0 g0' hh).1.le,
                 (ih g0 d0 m0 a0 b0 v0 mv0 g0' hh).2⟩)
              _ _ _ _ _ _ _ _ h
            exact ⟨lt_of_lt_of_le (Nat.lt_succ_self _) hml.1,
              le_trans (le_max_left _ _) hml.2⟩
          · have hml := minLoop_counters (minimax n) d α
              (fun g0 d0 m0 a0 b0 v0 mv0 g0' hh =>
                ⟨(ih g0 d0 m0 a0 b0 v0 mv0 g0' hh).1.le,
                 (ih g0 d0 m0 a0 b0 v0 mv0 g0' hh).2⟩)
              _ _ _ _ _ _ _ _ h
            exact ⟨lt_of_lt_of_le (Nat.lt_succ_self _) hml.1,
              le_trans (le_max_left _ _) hml.2⟩

/-- A terminal position (a completed line for either player) makes
`minimax` return immediately with no move, only bumping the counters. -/
lemma minimax_winner_none_move (fuel : Nat) (g : TicTacToe) (d : Nat)
    (m : Bool) (α β : Score)
    (h : check_winner g.board Mark.O = true ∨
      check_winner g.board Mark.X = true) :
    minimax (fuel + 1) g d m α β =
      some ((if check_winner g.board Mark.O then iv (10 - (d : ℤ))
             else iv ((d : ℤ) - 10)), none,
        { g with
          nodes_explored := g.nodes_explored + 1
          depth_reached := max g.depth_reached d }) := by
  simp only [minimax]
  by_cases hO : check_winner g.board Mark.O = true
  · rw [if_pos hO, if_pos hO]
  · rw [if_neg hO, if_neg hO]
    rcases h with h' | h'
    · exact absurd h' hO
    · rw [if_pos h']

/-- When the root `minimax` call yields no move, `get_ai_move` falls
back to the head of the empty-cell list. -/
lemma get_ai_move_none_case {g : TicTacToe} {s : Score} {g0 : TicTacToe}
    {m : Nat × Nat} {rest : List (Nat × Nat)}
    (h : minimax 10 g 0 true ⊥ ⊤ = some (s, none, g0))
    (he : get_empty_cells g0.board = m :: rest) :
    get_ai_move g = some (m, g0) := by
  simp only [get_ai_move, h, he]

/-!
## The claims

Concrete scenario states used by the claim theorems, their witnesses
and counterexamples.
-/

/-- A one-move-from-draw position with `'X'` to move. -/
def gC1w : TicTacToe :=
  { init with board := [[X, O, X], [X, O, O], [O, X, E]] }

/-- The state `minimax 2 gC1w 0 false` returns (board restored, two
nodes visited, depth 1 reached). -/
def gC1w2 : TicTacToe := { gC1w with nodes_explored := 2, depth_reached := 1 }

/-- Row 0 is `[X, X, E]`, everything else empty: `'X'` to move wins at
`(0, 2)`. -/
def gC5 : TicTacToe :=
  { init with board := [[X, X, E], [E, E, E], [E, E, E]] }

/-- A board `'O'` has already won, with four empty cells left, and
counters mid-game at 5 nodes / depth 2. -/
def gOWon : TicTacToe :=
  { init with
    board := [[O, O, O], [X, X, E], [E, E, E]]
    nodes_explored := 5
    depth_reached := 2 }

/-- `gOWon` after one more `minimax` node. -/
def gOWon6 : TicTacToe := { gOWon with nodes_explored := 6 }

/-- A position where `'X'` completes the top row by playing `(0, 2)`. -/
def gWin : TicTacToe :=
  { init with board := [[X, X, E], [O, O, E], [E, E, E]], moves_made := 4 }

/-- The state `make_move gWin 0 2 'X'` produces: the game is over with
winner `'X'`, yet `current_player` was still toggled to `'O'`. -/
def gWinAfter : TicTacToe :=
  { gWin with
    board := [[X, X, X], [O, O, E], [E, E, E]]
    current_player := Mark.O
    game_over := true
    winner := some Mark.X
    moves_made := 5
    player_wins := 1 }

/-- A board whose cell `(0, 0)` is occupied. -/
def gOcc : TicTacToe :=
  { init with board := [[X, E, E], [E, E, E], [E, E, E]] }

/-- A finished game (the `game_over` flag is set). -/
def gDone : TicTacToe := { init with game_over := true }

/-- Claim C1: at the root window `(-inf, inf)` the program passes,
minimax with alpha-beta pruning returns exactly the same score and the
same best move as plain exhaustive minimax (full enumeration of empty
cells in row-major order with strict `>` / `<` tie-break comparisons)
on the same board. -/
theorem alphabeta_refines_plain (fuel : Nat) (g : TicTacToe) (d : Nat)
    (m : Bool) (v : Score) (mv : Option (Nat × Nat)) (g1 : TicTacToe)
    (w : Score) (mw : Option (Nat × Nat)) (g2 : TicTacToe)
    (hA : minimax fuel g d m ⊥ ⊤ = some (v, mv, g1))
    (hP : minimaxPlain fuel g d m = some (w, mw, g2)) :
    v = w ∧ mv = mw :=
  minimax_root_eq fuel g g d m v mv g1 w mw g2 rfl hA hP

/-- Claim C1 witness: on the concrete position `gC1w` both searches
return score 0 and move `(2, 2)`. -/
theorem alphabeta_refines_plain_witness :
    (iv 0 : Score) = iv 0 ∧
    (some (2, 2) : Option (Nat × Nat)) = some (2, 2) :=
  alphabeta_refines_plain 2 gC1w 0 false (iv 0) (some (2, 2)) gC1w2
    (iv 0) (some (2, 2)) gC1w2 (by decide) (by decide)

/-- Claim C2: from the empty board with `'X'` to move, if every turn
the current player plays the move chosen by its own root search and
applies it with `make_move`, the game ends after nine turns with the
game over and no winner — a draw. -/
theorem optimal_selfplay_is_draw :
    ∃ gf, playN 9 = some gf ∧ gf.game_over = true ∧ gf.winner = none :=
  selfplay_chain

/-- Claim C3 counterexample: `make_move` on the out-of-range
coordinates `(-1, -1)` does not fail — it returns `true` and mutates
cell `(2, 2)` (CPython negative indexing) — and on `(3, 0)` it raises
`IndexError` (modelled `none`) instead of returning `false`. -/
theorem make_move_range_counterexample :
    make_move init (-1) (-1) Mark.X
      = some (true, { init with
          board := [[E, E, E], [E, E, E], [E, E, X]]
          current_player := Mark.O
          moves_made := 1 })
    ∧ make_move init 3 0 Mark.X = none := by decide

/-- Claim C3 amended: `make_move` returns failure (`false`) if and
only if the game is over or the (Python-resolved) target cell is
occupied — and then the state comes back exactly unchanged — while a
row or column coordinate outside the list range raises `IndexError`
(modelled `none`) rather than returning `false`. -/
theorem make_move_failure_cases :
    (∀ (g : TicTacToe) (row col : Int) (player : Mark),
      g.game_over = true → make_move g row col player = some (false, g))
    ∧ (∀ (g : TicTacToe) (row col : Int) (player : Mark) (r c : Nat),
        g.game_over = false →
        pyIdx g.board.length row = some r →
        pyIdx (g.board.getD r []).length col = some c →
        getCell g.board r c ≠ Mark.E →
        make_move g row col player = some (false, g))
    ∧ (∀ (g : TicTacToe) (row col : Int) (player : Mark),
        g.game_over = false →
        pyIdx g.board.length row = none →
        make_move g row col player = none)
    ∧ (∀ (g : TicTacToe) (row col : Int) (player : Mark) (r : Nat),
        g.game_over = false →
        pyIdx g.board.length row = some r →
        pyIdx (g.board.getD r []).length col = none →
        make_move g row col player = none)
    ∧ (∀ (g : TicTacToe) (row col : Int) (player : Mark) (g2 : TicTacToe),
        make_move g row col player = some (false, g2) →
        g2 = g ∧ (g.game_over = true ∨
          ∃ r c, pyIdx g.board.length row = some r ∧
            pyIdx (g.board.getD r []).length col = some c ∧
            getCell g.board r c ≠ Mark.E)) := by
  refine ⟨?_, ?_, ?_, ?_, ?_⟩
  · intro g row col player h
    unfold make_move
    rw [if_pos h]
  · intro g row col player r c hgo hr hc hocc
    have hgo' : ¬ (g.game_over = true) := by
      rw [hgo]; exact Bool.false_ne_true
    simp only [make_move, if_neg hgo', hr, hc, if_pos hocc]
  · intro g row col player hgo hr
    have hgo' : ¬ (g.game_over = true) := by
      rw [hgo]; exact Bool.false_ne_true
    simp only [make_move, if_neg hgo', hr]
  · intro g row col player r hgo hr hc
    have hgo' : ¬ (g.game_over = true) := by
      rw [hgo]; exact Bool.false_ne_true
    simp only [make_move, if_neg hgo', hr, hc]
  · intro g row col player g2 h
    simp only [make_move] at h
    split at h
    · rename_i hgo
      simp only [Option.some.injEq, Prod.mk.injEq] at h
      exact ⟨h.2.symm, Or.inl hgo⟩
    · cases hr : pyIdx g.board.length row with
      | none => simp only [hr] at h; exact Option.noConfusion h
      | some r =>
        simp only [hr] at h
        cases hc : pyIdx (g.board.getD r []).length col with
        | none => simp only [hc] at h; exact Option.noConfusion h
        | some c =>
          simp only [hc] at h
          split at h
          · rename_i hocc
            simp only [Option.some.injEq, Prod.mk.injEq] at h
            exact ⟨h.2.symm, Or.inr ⟨r, c, rfl, hc, hocc⟩⟩
          · simp only [Option.some.injEq, Prod.mk.injEq] at h
            exact absurd h.1 (by decide)

/-- Claim C3 amended witness: the failure modes at concrete inputs —
finished game, occupied cell `(0, 0)`, row index 5, column index 5 —
and the only-when characterization at the occupied-cell call. -/
theorem make_move_failure_cases_witness :
    make_move gDone 0 0 Mark.X = some (false, gDone)
    ∧ make_move gOcc 0 0 Mark.O = some (false, gOcc)
    ∧ make_move init 5 0 Mark.X = none
    ∧ make_move init 0 5 Mark.X = none
    ∧ (gOcc = gOcc ∧ (gOcc.game_over = true ∨
        ∃ r c, pyIdx gOcc.board.length 0 = some r ∧
          pyIdx (gOcc.board.getD r []).length 0 = some c ∧
          getCell gOcc.board r c ≠ Mark.E)) :=
  ⟨make_move_failure_cases.1 gDone 0 0 Mark.X rfl,
   make_move_failure_cases.2.1 gOcc 0 0 Mark.O 0 0 rfl (by decide)
     (by decide) (by decide),
   make_move_failure_cases.2.2.1 init 5 0 Mark.X rfl (by decide),
   make_move_failure_cases.2.2.2.1 init 0 5 Mark.X 0 rfl (by decide)
     (by decide),
   make_move_failure_cases.2.2.2.2 gOcc 0 0 Mark.O gOcc (by decide)⟩

/-- Claim C4: a completed `minimax` call hands back a state whose board
is cell-for-cell the board it started from — every speculative
placement is rolled back on every return path, pruning included. -/
theorem minimax_preserves_board (fuel : Nat) (g : TicTacToe) (d : Nat)
    (m : Bool) (α β : Score) (v : Score) (mv : Option (Nat × Nat))
    (g' : TicTacToe)
    (h : minimax fuel g d m α β = some (v, mv, g')) :
    g'.board = g.board :=
  (minimax_state fuel g d m α β v mv g' h).1

/-- Claim C4 witness: the board of the state returned by
`minimax 2 gC1w 0 false` equals `gC1w`'s board. -/
theorem minimax_preserves_board_witness : gC1w2.board = gC1w.board :=
  minimax_preserves_board 2 gC1w 0 false ⊥ ⊤ (iv 0) (some (2, 2)) gC1w2
    (by decide)

set_option maxRecDepth 20000 in
set_option maxHeartbeats 400000000 in
/-- Claim C5: on the board with row 0 `[X, X, E]` and all else empty,
the minimizing root search (the call the program makes for `'X'`)
returns the immediate winning move `(0, 2)` with score `1 - 10 = -9`,
the shallowest winning depth. -/
theorem minimax_takes_immediate_win :
    (minimax 10 gC5 0 false ⊥ ⊤).map (fun t => (t.1, t.2.1))
      = some (iv (-9), some (0, 2)) := by
  rw [minimax_fast]
  decide

/-- Claim C6: `reset_game` on any state clears the board, hands the
move back to `'X'`, clears the outcome, the last automated move and
the instrumentation counters, and leaves the cumulative win and draw
tallies exactly as they were. -/
theorem reset_game_spec (g : TicTacToe) :
    (reset_game g).board = emptyBoard
    ∧ (reset_game g).current_player = Mark.X
    ∧ (reset_game g).game_over = false
    ∧ (reset_game g).winner = none
    ∧ (reset_game g).last_ai_move = none
    ∧ (reset_game g).moves_made = 0
    ∧ (reset_game g).nodes_explored = 0
    ∧ (reset_game g).depth_reached = 0
    ∧ (reset_game g).player_wins = g.player_wins
    ∧ (reset_game g).ai_wins = g.ai_wins
    ∧ (reset_game g).draws = g.draws :=
  ⟨rfl, rfl, rfl, rfl, rfl, rfl, rfl, rfl, rfl, rfl, rfl⟩

/-- Claim C7 counterexample: the winning move `(0, 2)` by `'X'` ends
the game (winner `'X'`), yet `current_player` is still toggled to
`'O'` — the mover is not left unchanged when the move ends the game. -/
theorem make_move_toggle_counterexample :
    make_move gWin 0 2 Mark.X = some (true, gWinAfter)
    ∧ gWin.current_player = Mark.X
    ∧ gWinAfter.game_over = true
    ∧ gWinAfter.current_player ≠ gWin.current_player := by decide

/-- Claim C7 amended: every successful `make_move` unconditionally sets
`current_player` to the opponent of the placed mark — also when the
move wins or draws the game (line 76 runs on every success path). -/
theorem make_move_always_toggles (g : TicTacToe) (row col : Int)
    (player : Mark) (g' : TicTacToe)
    (h : make_move g row col player = some (true, g')) :
    g'.current_player = (if player = Mark.X then Mark.O else Mark.X) := by
  simp only [make_move] at h
  split at h
  · simp at h
  · cases hr : pyIdx g.board.length row with
    | none => simp only [hr] at h; exact Option.noConfusion h
    | some r =>
      simp only [hr] at h
      cases hc : pyIdx (g.board.getD r []).length col with
      | none => simp only [hc] at h; exact Option.noConfusion h
      | some c =>
        simp only [hc] at h
        split at h
        · simp at h
        · simp only [Option.some.injEq, Prod.mk.injEq] at h
          rw [← h.2]

/-- Claim C7 amended witness: after `'X'` wins with `(0, 2)` from
`gWin`, the mover is the opponent `'O'`. -/
theorem make_move_always_toggles_witness :
    gWinAfter.current_player = (if Mark.X = Mark.X then Mark.O else Mark.X) :=
  make_move_always_toggles gWin 0 2 Mark.X gWinAfter (by decide)

/-- Claim C8: `get_ai_move` never resets the instrumentation — every
call strictly raises `nodes_explored` and never lowers `depth_reached`
on top of whatever the state already recorded — and only `reset_game`
sets both counters back to zero. -/
theorem counters_accumulate_until_reset :
    (∀ (g : TicTacToe) (p : Nat × Nat) (g' : TicTacToe),
      get_ai_move g = some (p, g') →
      g.nodes_explored < g'.nodes_explored ∧
      g.depth_reached ≤ g'.depth_reached)
    ∧ (∀ g : TicTacToe,
        (reset_game g).nodes_explored = 0 ∧
        (reset_game g).depth_reached = 0) := by
  constructor
  · intro g p g' h
    simp only [get_ai_move] at h
    cases hm : minimax 10 g 0 true ⊥ ⊤ with
    | none => simp only [hm] at h; exact Option.noConfusion h
    | some t =>
      obtain ⟨s, mvo, gm⟩ := t
      have hc := minimax_counters 10 g 0 true ⊥ ⊤ s mvo gm hm
      cases mvo with
      | some mv0 =>
        simp only [hm, Option.some.injEq, Prod.mk.injEq] at h
        rw [← h.2]
        exact hc
      | none =>
        simp only [hm] at h
        cases he : get_empty_cells gm.board with
        | nil => simp only [he] at h; exact Option.noConfusion h
        | cons m0 rest =>
          simp only [he, Option.some.injEq, Prod.mk.injEq] at h
          rw [← h.2]
          exact hc
  · intro g
    exact ⟨rfl, rfl⟩

/-- Claim C8 witness: from `gOWon` (5 nodes, depth 2 already recorded)
one `get_ai_move` call moves the counters to 6 nodes, depth 2 — and
`reset_game` zeroes them. -/
theorem counters_accumulate_until_reset_witness :
    (gOWon.nodes_explored < gOWon6.nodes_explored ∧
      gOWon.depth_reached ≤ gOWon6.depth_reached)
    ∧ ((reset_game init).nodes_explored = 0 ∧
        (reset_game init).depth_reached = 0) :=
  ⟨counters_accumulate_until_reset.1 gOWon (1, 2) gOWon6 (by decide),
   counters_accumulate_until_reset.2 init⟩

/-- Claim C9: on a board some player has already won but empty cells
remain, `get_ai_move` does not fail fast: the root `minimax` call
returns no move for the terminal position and `get_ai_move` silently
falls back to the first empty cell in row-major order. -/
theorem get_ai_move_fallback (g : TicTacToe) (m : Nat × Nat)
    (rest : List (Nat × Nat))
    (hwin : check_winner g.board Mark.O = true ∨
      check_winner g.board Mark.X = true)
    (hemp : get_empty_cells g.board = m :: rest) :
    ∃ g', get_ai_move g = some (m, g') := by
  have hm := minimax_winner_none_move 9 g 0 true ⊥ ⊤ hwin
  exact ⟨_, get_ai_move_none_case (show minimax 10 g 0 true ⊥ ⊤ = _ from hm) hemp⟩

/-- Claim C9 witness: on `gOWon` (`'O'` already won, four empties) the
fallback returns the first empty cell `(1, 2)`. -/
theorem get_ai_move_fallback_witness :
    ∃ g', get_ai_move gOWon = some ((1, 2), g') :=
  get_ai_move_fallback gOWon (1, 2) [(2, 0), (2, 1), (2, 2)]
    (Or.inl (by decide)) (by decide)

/-- Claim C10: `make_move` performs no range check of its own: for
negative coordinates in `[-3, 0)` on a 3×3 board of a game that is not
over, with the wrapped target cell empty, it places the mark at
`(row + 3, col + 3)` (CPython negative indexing) and returns `true`,
while `is_valid_move` returns `false` for the same coordinates. -/
theorem make_move_wraps_negative (g : TicTacToe) (row col : Int)
    (player : Mark)
    (hgo : g.game_over = false)
    (hr1 : -3 ≤ row) (hr2 : row < 0) (hc1 : -3 ≤ col) (hc2 : col < 0)
    (hlen : g.board.length = 3)
    (hlen2 : (g.board.getD (row + 3).toNat []).length = 3)
    (hcell : getCell g.board (row + 3).toNat (col + 3).toNat = Mark.E) :
    (∃ g', make_move g row col player = some (true, g')
      ∧ g'.board = setCell g.board (row + 3).toNat (col + 3).toNat player)
    ∧ is_valid_move g row col = false := by
  have hgo' : ¬ (g.game_over = true) := by
    rw [hgo]; exact Bool.false_ne_true
  have hrow : pyIdx g.board.length row = some (row + 3).toNat := by
    rw [hlen]
    unfold pyIdx
    rw [if_neg (not_le.mpr hr2), if_pos (by omega)]
    congr 1
  have hcol : pyIdx (g.board.getD (row + 3).toNat []).length col
      = some (col + 3).toNat := by
    rw [hlen2]
    unfold pyIdx
    rw [if_neg (not_le.mpr hc2), if_pos (by omega)]
    congr 1
  constructor
  · simp only [make_move, if_neg hgo', hrow, hcol,
      if_neg (not_not_intro hcell)]
    refine ⟨_, rfl, ?_⟩
    split
    · rfl
    · split
      · rfl
      · rfl
  · have h0 : ¬ (0 ≤ row) := not_le.mpr hr2
    simp [is_valid_move, h0]

/-- Claim C10 witness: `make_move init (-1) (-1) 'X'` succeeds and
marks cell `(2, 2)`, while `is_valid_move init (-1) (-1)` is `false`. -/
theorem make_move_wraps_negative_witness :
    (∃ g', make_move init (-1) (-1) Mark.X = some (true, g')
      ∧ g'.board = setCell init.board ((-1 : Int) + 3).toNat
          ((-1 : Int) + 3).toNat Mark.X)
    ∧ is_valid_move init (-1) (-1) = false :=
  make_move_wraps_negative init (-1) (-1) Mark.X rfl (by decide) (by decide)
    (by decide) (by decide) rfl rfl (by decide)

end TTT




